import Mathlib

/-! timesyncd: GPS epoch conversion and the epoch exchange.

A model of `src/timesyncd.cpp`: the arithmetic that turns a NAV-TIMEGPS fix into a Unix
epoch (`timesync_server_daemon`, lines 138-142), the acquisition and accept loops of the
server, and the connect loop and exchange of the client.

* C `int` and `long` are integers wrapped to 32 and 64 bits (two's complement).
* C `double` is IEEE 754 binary64: a finite double is a rational number, and every
  operation is the exact operation followed by rounding to nearest, ties to even.
  Overflow to infinity is left out; every quantity of the converter stays below `2^33`
  for fields that fit 32 bits.
* Calls into the operating system and into the receiver driver are recorded as a list of
  `Event`s, in program order; what they return is given by an environment record.
-/

namespace Timesyncd

/-! ## Machine integers -/

/-- A value wrapped to a signed 32-bit `int`. -/
def wrap32 (x : Int) : Int := (x + 2147483648) % 4294967296 - 2147483648

/-- A value wrapped to a signed 64-bit `long` (`time_t`). -/
def wrap64 (x : Int) : Int :=
  (x + 9223372036854775808) % 18446744073709551616 - 9223372036854775808

/-- Multiplication of two `int`s. -/
def imul32 (a b : Int) : Int := wrap32 (a * b)

/-- Addition of two `int`s. -/
def iadd32 (a b : Int) : Int := wrap32 (a + b)

/-! ## binary64 arithmetic -/

/-- Nearest integer, ties to the even one. -/
def roundHalfEven (q : ℚ) : ℤ :=
  if q - ⌊q⌋ < 1 / 2 then ⌊q⌋
  else if 1 / 2 < q - ⌊q⌋ then ⌊q⌋ + 1
  else if ⌊q⌋ % 2 = 0 then ⌊q⌋ else ⌊q⌋ + 1

/-- Binary exponent of the binade a value lies in; subnormals share exponent -1022. -/
def binade (x : ℚ) : ℤ := max (Int.log 2 |x|) (-1022)

/-- Rounding of a real value to binary64: the nearest multiple of `2^(binade - 52)`,
a 53-bit significand, ties to even. -/
def roundDouble (x : ℚ) : ℚ :=
  (roundHalfEven (x / 2 ^ (binade x - 52)) : ℚ) * 2 ^ (binade x - 52)

/-- Truncation toward zero, the value part of a cast from `double` to an integer type. -/
def truncQ (x : ℚ) : ℤ := if 0 ≤ x then ⌊x⌋ else ⌈x⌉

/-- The cast `(int)x` of a double. -/
def castInt (x : ℚ) : Int := wrap32 (truncQ x)

/-- The cast `(long)x` of a double. -/
def castLong (x : ℚ) : Int := wrap64 (truncQ x)

/-- Double addition `a + b`. -/
def fadd (a b : ℚ) : ℚ := roundDouble (a + b)

/-- Double division `a / b`. -/
def fdiv (a b : ℚ) : ℚ := roundDouble (a / b)

/-! ## The converter (timesyncd.cpp, lines 138-142) -/

/-- The `int` expression `weeknumber*7*24*3600` of line 141, evaluated left to right. -/
def weekSeconds (weeknumber : Int) : Int := imul32 (imul32 (imul32 weeknumber 7) 24) 3600

/-- Lines 138-142 with the literal `2048` of line 140 as the parameter `weeks`;
`g0 .. g3` are the doubles `gpsdata[0] .. gpsdata[3]`. An `int` operand of a double
addition is converted exactly.
```
double timeofweek = gpsdata[0]/1000.0 + gpsdata[1]/1000000000.0 + (int)gpsdata[3];
int weeknumber = (int)gpsdata[2] + 2048;
time_t utcepoch = (long)(timeofweek + (int)gpsdata[3] + (weeknumber*7*24*3600));
utcepoch += 315964800;
``` -/
def gpsToUnixWith (weeks : Int) (g0 g1 g2 g3 : ℚ) : Int :=
  let timeofweek := fadd (fadd (fdiv g0 1000) (fdiv g1 1000000000)) (castInt g3)
  let weeknumber := iadd32 (castInt g2) weeks
  let utcepoch := castLong (fadd (fadd timeofweek (castInt g3)) (weekSeconds weeknumber))
  wrap64 (utcepoch + 315964800)

/-- The converter as written in the source: two rollovers, `2048` weeks. -/
def gpsToUnix (g0 g1 g2 g3 : ℚ) : Int := gpsToUnixWith 2048 g0 g1 g2 g3

/-! ## Text of the epoch exchange

Bytes are their ASCII codes: `'0'` is 48, `'-'` is 45, `'+'` is 43, NUL is 0. -/

/-- The C `isspace` in the "C" locale. -/
def isspace (c : Nat) : Bool := c = 32 || (9 ≤ c && c ≤ 13)

/-- The C `isdigit`. -/
def isdigit (c : Nat) : Bool := 48 ≤ c && c ≤ 57

/-- Decimal digits of a natural number, most significant first. -/
def decimalDigits (n : Nat) : List Nat :=
  if n = 0 then [48] else (Nat.digits 10 n).reverse.map (fun d => d + 48)

/-- The bytes `sprintf(out, "%ld", v)` writes before the terminating NUL (line 217). -/
def sprintf_ld (v : Int) : List Nat :=
  if v < 0 then 45 :: decimalDigits v.natAbs else decimalDigits v.natAbs

/-- Leading white space skipped by `atol`. -/
def skipSpace : List Nat → List Nat
  | [] => []
  | c :: cs => if isspace c then skipSpace cs else c :: cs

/-- The digits `atol` accumulates; it stops at the first byte that is not a digit. -/
def parseDigits : List Nat → Nat → Nat
  | [], acc => acc
  | c :: cs, acc => if isdigit c then parseDigits cs (acc * 10 + (c - 48)) else acc

/-- Saturation of `strtol` at `LONG_MIN` and `LONG_MAX`. -/
def clampLong (v : Int) : Int :=
  if v < -9223372036854775808 then -9223372036854775808
  else if 9223372036854775807 < v then 9223372036854775807 else v

/-- The C library `atol` (line 273): white space, an optional sign, digits; 0 when no digit
follows. -/
def atol (s : List Nat) : Int :=
  match skipSpace s with
  | [] => 0
  | c :: cs =>
    if c = 45 then clampLong (-(parseDigits cs 0 : Int))
    else if c = 43 then clampLong (parseDigits cs 0 : Int)
    else clampLong (parseDigits (c :: cs) 0 : Int)

/-- A zero-initialised `char buffer[size]` after `read(sockfd, buffer, size)` delivered
`received` (lines 268-269). -/
def readInto (size : Nat) (received : List Nat) : List Nat :=
  received.take size ++ List.replicate (size - received.length) 0

/-! ## Observable actions -/

/-- The syslog priorities used by the daemon. -/
inductive Priority where
  | LOG_ERR | LOG_WARNING | LOG_INFO | LOG_DEBUG
  deriving DecidableEq, Repr

/-- The messages the daemon logs, with their arguments. -/
inductive Msg where
  | gpsTestOk
  | settingRateFailed
  | obtainedGpsEpoch (utcepoch : Int)
  | couldNotSetSystemTimeGps
  | setSystemTimeGps
  | couldNotSetTimeGps
  | couldNotConnectGps
  | couldNotCreateSocket
  | couldNotBind (port : Int)
  | couldNotListen (port : Int)
  | waitingForConnection
  | requestReceived
  | systemTimeString (out : List Nat)
  | systemTimeLong (now : Int)
  | closingDaemon
  | creatingSocket
  | invalidAddress
  | serverAddress
  | willAttempt (timeout : Int)
  | connectionTimeout (retry : Int)
  | connected
  | responseLength (resp : Int)
  | receivedTime (server_time : Int)
  | couldNotSetSystemTime
  | settingSystemTime (server_time : Int)
  deriving DecidableEq, Repr

/-- One call out of the program, with the value it returned where the program gets one;
`sigpipe` is the end of the process by the signal SIGPIPE, for which the program installs
no handler. -/
inductive Event where
  | syslog (priority : Priority) (msg : Msg)
  | closelog
  | sleep (seconds : Int)
  | exit_failure
  | testConnection (ok : Bool)
  | configureSolutionRate (rate : Int) (ok : Bool)
  | decodeSingleMessage (ok : Bool)
  | settimeofday (tv_sec : Int) (tv_usec : Int) (ret : Int)
  | socket (ret : Int)
  | bind (port : Int) (ret : Int)
  | listen (ret : Int)
  | accept (ret : Int)
  | time (now : Int)
  | send (fd : Int) (data : List Nat) (ret : Int)
  | inet_pton (ret : Int)
  | connect (ret : Int)
  | read (fd : Int) (size : Nat) (ret : Int)
  | close (fd : Int)
  | sigpipe
  deriving DecidableEq, Repr

/-- The helper `exit_daemon` (lines 59-65): log, close the log, wait a second, exit. -/
def exit_daemon (priority : Priority) (msg : Msg) : List Event :=
  [Event.syslog priority msg, Event.syslog Priority.LOG_INFO Msg.closingDaemon, Event.closelog,
    Event.sleep 1, Event.exit_failure]

/-- The same block of events `k` times in a row. -/
def cycles : Nat → List Event → List Event
  | 0, _ => []
  | k + 1, block => block ++ cycles k block

/-! ## timesync_server_daemon (lines 108-224) -/

/-- The vector `gpsdata` after a successful decode of NAV-TIMEGPS (lines 129-133):
millisecond time of week, nanosecond remainder, week number, leap seconds, as doubles. -/
structure GpsData where
  tow_ms : ℚ
  tow_ns : ℚ
  week : ℚ
  leap : ℚ

/-- What happens on one pass of the accept loop: the value of `accept`, of `time(NULL)`
and of `send`, and whether the kernel raised SIGPIPE in that `send` (the peer had already
reset the connection). -/
structure Connection where
  accept_ret : Int
  now : Int
  send_ret : Int
  sigpipe : Bool

/-- The configuration and everything the server's surroundings answer. The `i`-th call of
`decodeSingleMessage` (counted from 0) yields `some gpsdata` when it returns 1. -/
structure ServerEnv where
  timeout : Int
  port : Int
  testConnection : Bool
  configureSolutionRate : Bool
  decodeSingleMessage : Nat → Option GpsData
  settimeofday_ret : Int
  socket_ret : Int
  bind_ret : Int
  listen_ret : Int
  connections : List Connection

/-- Outcome of the polling loop: what it did, the final `wait_cnt`, and whether the daemon
exited inside it. -/
structure PollResult where
  events : List Event
  wait_cnt : Int
  exited : Bool

/-- The loop `while (wait_cnt <= timeout)` of lines 125-161, from a state with `calls` decode
calls made and counter `wait_cnt`. The first argument bounds the number of passes; the
result is `none` when it is used up before the loop ends. -/
def pollGps (env : ServerEnv) : Nat → Nat → Int → Option PollResult
  | 0, _, wait_cnt =>
    if wait_cnt ≤ env.timeout then none else some ⟨[], wait_cnt, false⟩
  | fuel + 1, calls, wait_cnt =>
    if wait_cnt ≤ env.timeout then
      match env.decodeSingleMessage calls with
      | some g =>
        let utcepoch := gpsToUnix g.tow_ms g.tow_ns g.week g.leap
        let head := [Event.decodeSingleMessage true,
          Event.syslog Priority.LOG_INFO (Msg.obtainedGpsEpoch utcepoch),
          Event.settimeofday utcepoch 0 env.settimeofday_ret]
        if env.settimeofday_ret < 0 then
          some ⟨head ++ exit_daemon Priority.LOG_ERR Msg.couldNotSetSystemTimeGps, wait_cnt, true⟩
        else
          some ⟨head ++ [Event.syslog Priority.LOG_INFO Msg.setSystemTimeGps], wait_cnt, false⟩
      | none =>
        match pollGps env fuel (calls + 1) (iadd32 wait_cnt 1) with
        | some r =>
          some ⟨Event.decodeSingleMessage false :: Event.sleep 1 :: r.events, r.wait_cnt, r.exited⟩
        | none => none
    else some ⟨[], wait_cnt, false⟩

/-- GPS acquisition, lines 116-167: the events, and whether the daemon exited. -/
def acquireGps (env : ServerEnv) (fuel : Nat) : Option (List Event × Bool) :=
  if env.testConnection then
    let head := [Event.testConnection true, Event.syslog Priority.LOG_INFO Msg.gpsTestOk,
      Event.configureSolutionRate 5000 env.configureSolutionRate] ++
      (if env.configureSolutionRate then []
        else [Event.syslog Priority.LOG_WARNING Msg.settingRateFailed])
    match pollGps env fuel 0 0 with
    | none => none
    | some r =>
      if r.exited then some (head ++ r.events, true)
      else if r.wait_cnt > env.timeout then
        some (head ++ r.events ++ [Event.syslog Priority.LOG_WARNING Msg.couldNotSetTimeGps], false)
      else some (head ++ r.events, false)
  else
    some ([Event.testConnection false,
      Event.syslog Priority.LOG_WARNING Msg.couldNotConnectGps], false)

/-- The loop `while(true)` of lines 197-223 over the connections the surroundings supply;
when they are used up the server is waiting in `accept`. The values of `accept` and `send`
are not tested, the accepted socket is never closed, and `send` is called with flags 0
(line 218): when the kernel raises SIGPIPE in it on an accepted socket, the process ends
there. Which values `accept` can return while the sockets stay open is `descriptorsAllow`. -/
def acceptLoop : List Connection → List Event
  | [] => [Event.syslog Priority.LOG_DEBUG Msg.waitingForConnection]
  | c :: rest =>
    [Event.syslog Priority.LOG_DEBUG Msg.waitingForConnection,
      Event.accept c.accept_ret,
      Event.syslog Priority.LOG_DEBUG Msg.requestReceived,
      Event.time c.now,
      Event.send c.accept_ret (sprintf_ld c.now) c.send_ret] ++
    (if c.sigpipe = true ∧ 0 ≤ c.accept_ret then [Event.sigpipe]
    else
      [Event.syslog Priority.LOG_DEBUG (Msg.systemTimeString (sprintf_ld c.now)),
        Event.syslog Priority.LOG_DEBUG (Msg.systemTimeLong c.now)] ++ acceptLoop rest)

/-- The kernel's descriptor table along a trace that starts with `open_fds` descriptors
open, under a limit of `limit` (RLIMIT_NOFILE): `accept` can return a descriptor only while
fewer than `limit` are open (otherwise it fails with EMFILE), and `close` frees one. -/
def descriptorsAllow (limit : Nat) : Nat → List Event → Bool
  | _, [] => true
  | open_fds, Event.accept ret :: es =>
    if 0 ≤ ret then decide (open_fds < limit) && descriptorsAllow limit (open_fds + 1) es
    else descriptorsAllow limit open_fds es
  | open_fds, Event.close _ :: es => descriptorsAllow limit (open_fds - 1) es
  | open_fds, _ :: es => descriptorsAllow limit open_fds es

/-- The number of `accept` calls of a trace that returned a socket. -/
def acceptedCount : List Event → Nat
  | [] => 0
  | Event.accept ret :: es => (if 0 ≤ ret then 1 else 0) + acceptedCount es
  | _ :: es => acceptedCount es

/-- Socket setup and serving, lines 169-224. -/
def serveClients (env : ServerEnv) : List Event :=
  if env.socket_ret = 0 then
    Event.socket env.socket_ret :: exit_daemon Priority.LOG_ERR Msg.couldNotCreateSocket
  else if env.bind_ret < 0 then
    Event.socket env.socket_ret :: Event.bind env.port env.bind_ret ::
      exit_daemon Priority.LOG_ERR (Msg.couldNotBind env.port)
  else if env.listen_ret < 0 then
    Event.socket env.socket_ret :: Event.bind env.port env.bind_ret ::
      Event.listen env.listen_ret :: exit_daemon Priority.LOG_ERR (Msg.couldNotListen env.port)
  else
    Event.socket env.socket_ret :: Event.bind env.port env.bind_ret ::
      Event.listen env.listen_ret :: acceptLoop env.connections

/-- The server daemon: acquisition, then socket setup and the accept loop. -/
def timesync_server_daemon (env : ServerEnv) (fuel : Nat) : Option (List Event) :=
  match acquireGps env fuel with
  | none => none
  | some (events, true) => some events
  | some (events, false) => some (events ++ serveClients env)

/-! ## timesync_client_daemon (lines 226-291) -/

/-- The configuration and everything the client's surroundings answer: the successive
values of `connect`, and the bytes and value of `read`. -/
structure ClientEnv where
  timeout : Int
  socket_ret : Int
  inet_pton_ret : Int
  connect_rets : List Int
  received : List Nat
  read_ret : Int
  settimeofday_ret : Int

/-- The loop `while(connect(...) < 0)` of lines 250-262 over the successive values of
`connect`, from counter `wait_cnt`: the events, and whether a connect succeeded. -/
def connectLoop (timeout : Int) : List Int → Int → List Event × Bool
  | [], _ => ([], false)
  | r :: rest, wait_cnt =>
    if r < 0 then
      if iadd32 wait_cnt 1 > timeout then
        let tail := connectLoop timeout rest 0
        (Event.connect r :: Event.sleep 1 ::
          Event.syslog Priority.LOG_WARNING (Msg.connectionTimeout (imul32 timeout 10)) ::
          Event.sleep (imul32 timeout 10) :: tail.1, tail.2)
      else
        let tail := connectLoop timeout rest (iadd32 wait_cnt 1)
        (Event.connect r :: Event.sleep 1 :: tail.1, tail.2)
    else ([Event.connect r], true)

/-- The exchange once connected, lines 264-290. -/
def exchange (env : ClientEnv) : List Event :=
  let buffer := readInto 1024 env.received
  let server_time := atol buffer
  [Event.syslog Priority.LOG_DEBUG Msg.connected,
    Event.read env.socket_ret 1024 env.read_ret,
    Event.syslog Priority.LOG_DEBUG (Msg.responseLength env.read_ret),
    Event.syslog Priority.LOG_INFO (Msg.receivedTime server_time),
    Event.settimeofday server_time 0 env.settimeofday_ret] ++
  (if env.settimeofday_ret < 0 then
    Event.close env.socket_ret :: exit_daemon Priority.LOG_ERR Msg.couldNotSetSystemTime
  else
    [Event.syslog Priority.LOG_DEBUG (Msg.settingSystemTime server_time),
      Event.close env.socket_ret])

/-- The client daemon. -/
def timesync_client_daemon (env : ClientEnv) : List Event :=
  if env.socket_ret < 0 then
    Event.syslog Priority.LOG_DEBUG Msg.creatingSocket :: Event.socket env.socket_ret ::
      exit_daemon Priority.LOG_ERR Msg.couldNotCreateSocket
  else if env.inet_pton_ret ≤ 0 then
    Event.syslog Priority.LOG_DEBUG Msg.creatingSocket :: Event.socket env.socket_ret ::
      Event.inet_pton env.inet_pton_ret :: exit_daemon Priority.LOG_ERR Msg.invalidAddress
  else
    let loop := connectLoop env.timeout env.connect_rets 0
    [Event.syslog Priority.LOG_DEBUG Msg.creatingSocket, Event.socket env.socket_ret,
      Event.inet_pton env.inet_pton_ret, Event.syslog Priority.LOG_DEBUG Msg.serverAddress,
      Event.syslog Priority.LOG_DEBUG (Msg.willAttempt env.timeout)] ++ loop.1 ++
    (if loop.2 then exchange env else [])

/-! ## Sample surroundings -/

/-- A reachable receiver that never delivers a fix, with `timeout = 2`. -/
def noFixEnv : ServerEnv :=
  { timeout := 2, port := 9999, testConnection := true, configureSolutionRate := true,
    decodeSingleMessage := fun _ => none, settimeofday_ret := 0, socket_ret := 3,
    bind_ret := 0, listen_ret := 0, connections := [] }

/-- An accepted connection on descriptor 4. -/
def sampleConnection : Connection :=
  { accept_ret := 4, now := 0, send_ret := 20, sigpipe := false }

/-- An accepted connection on descriptor 4 that the peer reset before the reply. -/
def resetConnection : Connection :=
  { accept_ret := 4, now := 1700000000, send_ret := -1, sigpipe := true }

/-- A client whose first connect succeeds. -/
def sampleClientEnv : ClientEnv :=
  { timeout := 5, socket_ret := 3, inet_pton_ret := 1, connect_rets := [0], received := [],
    read_ret := 20, settimeofday_ret := 0 }

/-- A client whose first connect succeeds, whose server sends no byte, and whose
`settimeofday` is refused. -/
def emptyReplyEnv : ClientEnv :=
  { timeout := 5, socket_ret := 3, inet_pton_ret := 1, connect_rets := [0], received := [],
    read_ret := 0, settimeofday_ret := -1 }

/-- A client whose first connect succeeds and which receives the 13 bytes
`1700000000abc`. -/
def garbledReplyEnv : ClientEnv :=
  { timeout := 5, socket_ret := 3, inet_pton_ret := 1, connect_rets := [0],
    received := [49, 55, 48, 48, 48, 48, 48, 48, 48, 48, 97, 98, 99],
    read_ret := 13, settimeofday_ret := 0 }

/-! ## Rounding lemmas -/

theorem roundHalfEven_intCast (n : ℤ) : roundHalfEven (n : ℚ) = n := by
  simp [roundHalfEven]

theorem abs_roundHalfEven_sub_le (q : ℚ) : |(roundHalfEven q : ℚ) - q| ≤ 1 / 2 := by
  have h1 := Int.floor_le q
  have h2 := Int.lt_floor_add_one q
  unfold roundHalfEven
  split_ifs <;> push_cast <;> rw [abs_le] <;> constructor <;> linarith

theorem log2_eq_of_bounds {x : ℚ} {e : ℤ} (h1 : (2 : ℚ) ^ e ≤ x) (h2 : x < (2 : ℚ) ^ (e + 1)) :
    Int.log 2 x = e := by
  have hx : 0 < x := lt_of_lt_of_le (by positivity) h1
  have a1 : e ≤ Int.log 2 x := by
    rw [← Int.zpow_le_iff_le_log (by norm_num) hx]
    exact_mod_cast h1
  have a2 : Int.log 2 x < e + 1 := by
    rw [← Int.lt_zpow_iff_log_lt (by norm_num) hx]
    exact_mod_cast h2
  omega

theorem binade_eq_of_bounds {x : ℚ} {e : ℤ} (he : -1022 ≤ e) (h1 : (2 : ℚ) ^ e ≤ |x|)
    (h2 : |x| < (2 : ℚ) ^ (e + 1)) : binade x = e := by
  unfold binade
  rw [log2_eq_of_bounds h1 h2]
  exact max_eq_left he

theorem roundDouble_zero : roundDouble 0 = 0 := by
  simp [roundDouble, roundHalfEven]

theorem roundDouble_of_binade {x : ℚ} {e : ℤ} (he : -1022 ≤ e) (h1 : (2 : ℚ) ^ e ≤ |x|)
    (h2 : |x| < (2 : ℚ) ^ (e + 1)) :
    roundDouble x = (roundHalfEven (x / 2 ^ (e - 52)) : ℚ) * 2 ^ (e - 52) := by
  unfold roundDouble
  rw [binade_eq_of_bounds he h1 h2]

/-- The rounding error is at most half a unit in the last place. -/
theorem abs_roundDouble_sub_le (x : ℚ) :
    |roundDouble x - x| ≤ 2 ^ (binade x - 53) := by
  unfold roundDouble
  set u : ℚ := 2 ^ (binade x - 52) with hu
  have hupos : 0 < u := by positivity
  have h := abs_roundHalfEven_sub_le (x / u)
  have e1 : (roundHalfEven (x / u) : ℚ) * u - x = ((roundHalfEven (x / u) : ℚ) - x / u) * u := by
    field_simp
  rw [e1, abs_mul, abs_of_pos hupos]
  have e2 : (2 : ℚ) ^ (binade x - 53) = 1 / 2 * u := by
    rw [hu, show binade x - 52 = (binade x - 53) + 1 by ring, zpow_add_one₀ (by norm_num)]
    ring
  rw [e2]
  exact mul_le_mul_of_nonneg_right h hupos.le

theorem binade_le_of_abs_le {x : ℚ} {k : ℤ} (hk : -1022 ≤ k) (hx0 : x ≠ 0)
    (hx : |x| ≤ (2 : ℚ) ^ k) : binade x ≤ k := by
  unfold binade
  apply max_le _ hk
  have hpos : 0 < |x| := abs_pos.mpr hx0
  have := Int.log_mono_right (b := 2) hpos hx
  have h2 : Int.log 2 ((2 : ℚ) ^ k) = k := by
    have := Int.log_zpow (R := ℚ) (b := 2) (by norm_num) k
    exact_mod_cast this
  omega

theorem abs_roundDouble_sub_le_of_abs_le {x : ℚ} {k : ℤ} (hk : -1022 ≤ k)
    (hx : |x| ≤ (2 : ℚ) ^ k) : |roundDouble x - x| ≤ 2 ^ (k - 53) := by
  by_cases hx0 : x = 0
  · subst hx0
    rw [roundDouble_zero]
    simp
    positivity
  · refine le_trans (abs_roundDouble_sub_le x) ?_
    apply zpow_le_zpow_right₀ (by norm_num)
    have := binade_le_of_abs_le hk hx0 hx
    omega

theorem zpow_two_eq_intCast {k : ℤ} (hk : 0 ≤ k) :
    (2 : ℚ) ^ k = (((2 : ℤ) ^ k.toNat : ℤ) : ℚ) := by
  obtain ⟨n, rfl⟩ := Int.eq_ofNat_of_zero_le hk
  simp

theorem roundHalfEven_ge {q : ℚ} {n : ℤ} (h : (n : ℚ) - 1 / 2 < q) : n ≤ roundHalfEven q := by
  have h1 := abs_le.mp (abs_roundHalfEven_sub_le q)
  have : (n : ℚ) - 1 < (roundHalfEven q : ℚ) := by linarith [h1.1]
  have : n - 1 < roundHalfEven q := by exact_mod_cast this
  omega

theorem roundHalfEven_le {q : ℚ} {n : ℤ} (h : q < (n : ℚ) + 1 / 2) : roundHalfEven q ≤ n := by
  have h1 := abs_le.mp (abs_roundHalfEven_sub_le q)
  have : (roundHalfEven q : ℚ) < (n : ℚ) + 1 := by linarith [h1.2]
  have : roundHalfEven q < n + 1 := by exact_mod_cast this
  omega

theorem roundDouble_intCast (n : ℤ) (h : |n| < 2 ^ 53) : roundDouble (n : ℚ) = n := by
  by_cases hn : n = 0
  · subst hn
    simpa using roundDouble_zero
  have hq : (1 : ℚ) ≤ |(n : ℚ)| := by
    have : 1 ≤ |n| := Int.one_le_abs hn
    exact_mod_cast this
  have hq2 : |(n : ℚ)| < 2 ^ (53 : ℤ) := by
    have h' : ((|n| : ℤ) : ℚ) < (2 : ℚ) ^ (53 : ℕ) := by exact_mod_cast h
    rw [Int.cast_abs] at h'
    exact_mod_cast h'
  have hpos : 0 < |(n : ℚ)| := lt_of_lt_of_le one_pos hq
  have l0 : 0 ≤ Int.log 2 |(n : ℚ)| := by
    rw [← Int.zpow_le_iff_le_log (by norm_num) hpos]
    simpa using hq
  have l1 : Int.log 2 |(n : ℚ)| < 53 := by
    rw [← Int.lt_zpow_iff_log_lt (by norm_num) hpos]
    exact_mod_cast hq2
  have hb : binade (n : ℚ) = Int.log 2 |(n : ℚ)| := by
    unfold binade
    exact max_eq_left (by omega)
  unfold roundDouble
  rw [hb]
  set e := Int.log 2 |(n : ℚ)| with he
  have hk : 0 ≤ 52 - e := by omega
  have hu : (2 : ℚ) ^ (e - 52) = ((2 : ℚ) ^ (52 - e))⁻¹ := by
    rw [← zpow_neg]
    congr 1
    ring
  have hcast : (n : ℚ) / 2 ^ (e - 52) = ((n * (2 : ℤ) ^ (52 - e).toNat : ℤ) : ℚ) := by
    rw [hu, div_inv_eq_mul, zpow_two_eq_intCast hk]
    push_cast
    ring
  rw [hcast, roundHalfEven_intCast, hu, zpow_two_eq_intCast hk]
  push_cast
  field_simp

theorem truncQ_intCast (n : ℤ) : truncQ (n : ℚ) = n := by
  unfold truncQ
  split_ifs <;> simp

/-- In binade `e` doubles are `2^(e-52)` apart: a value `y` of that binade with
`M - 2^(e-53) < y < M + 1 - 2^(e-53)` rounds into `[M, M + 1)`, so the cast gives `M`. -/
theorem truncQ_roundDouble_eq {y : ℚ} {e M : ℤ} (he : -1022 ≤ e) (he2 : e ≤ 52)
    (h1 : (2 : ℚ) ^ e ≤ y) (h2 : y < (2 : ℚ) ^ (e + 1))
    (hlo : (M : ℚ) - 2 ^ (e - 53) < y) (hhi : y < (M : ℚ) + 1 - 2 ^ (e - 53)) :
    truncQ (roundDouble y) = M := by
  have hy : 0 < y := lt_of_lt_of_le (by positivity) h1
  have habs : |y| = y := abs_of_pos hy
  rw [roundDouble_of_binade he (by rw [habs]; exact h1) (by rw [habs]; exact h2)]
  have hk : 0 ≤ 52 - e := by omega
  set U : ℤ := (2 : ℤ) ^ (52 - e).toNat with hU
  have hUpos : (0 : ℚ) < (U : ℚ) := by
    rw [hU]; positivity
  have hu : (2 : ℚ) ^ (e - 52) = ((U : ℚ))⁻¹ := by
    rw [hU, ← zpow_two_eq_intCast hk, ← zpow_neg]
    congr 1
    ring
  have hhalf : (2 : ℚ) ^ (e - 53) = 1 / 2 * ((U : ℚ))⁻¹ := by
    rw [← hu, show e - 52 = (e - 53) + 1 by ring, zpow_add_one₀ (by norm_num)]
    ring
  rw [hu, div_inv_eq_mul]
  rw [hhalf] at hlo hhi
  have hUinv : (U : ℚ) * (U : ℚ)⁻¹ = 1 := mul_inv_cancel₀ hUpos.ne'
  have g1 : M * U ≤ roundHalfEven (y * U) := by
    apply roundHalfEven_ge
    push_cast
    have := mul_lt_mul_of_pos_right hlo hUpos
    nlinarith
  have g2 : roundHalfEven (y * U) ≤ (M + 1) * U - 1 := by
    apply roundHalfEven_le
    push_cast
    have := mul_lt_mul_of_pos_right hhi hUpos
    nlinarith
  set r := roundHalfEven (y * U) with hr
  have g1q : (M : ℚ) * U ≤ (r : ℚ) := by exact_mod_cast g1
  have g2q : (r : ℚ) ≤ ((M : ℚ) + 1) * U - 1 := by exact_mod_cast g2
  have hinvpos : (0 : ℚ) < (U : ℚ)⁻¹ := inv_pos.mpr hUpos
  have b1 : (M : ℚ) ≤ (r : ℚ) * (U : ℚ)⁻¹ := by
    have := mul_le_mul_of_nonneg_right g1q hinvpos.le
    rwa [mul_assoc, hUinv, mul_one] at this
  have b2 : (r : ℚ) * (U : ℚ)⁻¹ < (M : ℚ) + 1 := by
    have := mul_le_mul_of_nonneg_right g2q hinvpos.le
    have e3 : (((M : ℚ) + 1) * U - 1) * (U : ℚ)⁻¹ = (M : ℚ) + 1 - (U : ℚ)⁻¹ := by
      field_simp
    rw [e3] at this
    linarith
  have hM : (0 : ℚ) ≤ (M : ℚ) := by
    have : (0:ℚ) < 2 ^ (e - 53) := by positivity
    by_contra hneg
    push_neg at hneg
    have hM1 : M ≤ -1 := by
      have : M < 0 := by exact_mod_cast hneg
      omega
    have : (M : ℚ) ≤ -1 := by exact_mod_cast hM1
    rw [hhalf] at *
    linarith
  unfold truncQ
  rw [if_pos (le_trans hM b1)]
  rw [Int.floor_eq_iff]
  exact ⟨b1, b2⟩

/-! ## The converter in range -/

theorem wrap32_of_range {x : Int} (h1 : -2147483648 ≤ x) (h2 : x < 2147483648) : wrap32 x = x := by
  unfold wrap32; omega

theorem wrap64_of_range {x : Int} (h1 : -9223372036854775808 ≤ x) (h2 : x < 9223372036854775808) :
    wrap64 x = x := by
  unfold wrap64; omega

theorem castInt_intCast {n : Int} (h1 : -2147483648 ≤ n) (h2 : n < 2147483648) :
    castInt (n : ℚ) = n := by
  unfold castInt
  rw [truncQ_intCast, wrap32_of_range h1 h2]

theorem weekSeconds_of_range {wn : Int} (h0 : 0 ≤ wn) (h1 : wn ≤ 3550) :
    weekSeconds wn = wn * 604800 := by
  unfold weekSeconds imul32
  rw [wrap32_of_range (x := wn * 7) (by omega) (by omega),
    wrap32_of_range (x := wn * 7 * 24) (by omega) (by omega),
    wrap32_of_range (x := wn * 7 * 24 * 3600) (by omega) (by omega)]
  ring

/-- With the casts and the week product in range, the converter is the truncated
double sum plus the GPS epoch offset -/
theorem gpsToUnixWith_in_range {ms ns W : ℕ} {L weeks : ℤ} (hW : W < 65536)
    (hL : |L| ≤ 2 ^ 20) (hw0 : 0 ≤ (W : ℤ) + weeks) (hw1 : (W : ℤ) + weeks ≤ 3550) :
    gpsToUnixWith weeks (ms : ℚ) (ns : ℚ) (W : ℚ) (L : ℚ) =
      wrap64 (castLong (fadd (fadd (fadd (fadd (fdiv (ms : ℚ) 1000) (fdiv (ns : ℚ) 1000000000))
        (L : ℚ)) (L : ℚ)) ((((W : ℤ) + weeks) * 604800 : ℤ) : ℚ)) + 315964800) := by
  have hL' := abs_le.mp hL
  have c3 : castInt (L : ℚ) = L := castInt_intCast (by omega) (by omega)
  have c2 : castInt (W : ℚ) = (W : ℤ) := by
    have := castInt_intCast (n := (W : ℤ)) (by omega) (by omega)
    simpa using this
  unfold gpsToUnixWith
  simp only [c3, c2]
  have hw : iadd32 (W : ℤ) weeks = (W : ℤ) + weeks := by
    unfold iadd32
    exact wrap32_of_range (by omega) (by omega)
  rw [hw, weekSeconds_of_range hw0 hw1]

theorem abs_cast_le_of_abs_le {L : ℤ} (hL : |L| ≤ 2 ^ 20) : |(L : ℚ)| ≤ 1048576 := by
  have : ((|L| : ℤ) : ℚ) ≤ ((2 ^ 20 : ℤ) : ℚ) := by exact_mod_cast hL
  rw [Int.cast_abs] at this
  norm_num at this
  exact this

/-- Rounding a value of magnitude at most `2^23` moves it by at most `2^-30`. -/
theorem roundDouble_err23 {x : ℚ} (hx : |x| ≤ 8388608) :
    |roundDouble x - x| ≤ 1 / 1073741824 := by
  have h := abs_roundDouble_sub_le_of_abs_le (x := x) (k := 23) (by norm_num)
    (by norm_num; exact hx)
  norm_num at h
  exact h

/-- Accumulated error of the five roundings that build the time-of-week sum. -/
theorem towSum_error {ms ns : ℕ} {L : ℤ} (hms : ms < 4294967296) (hns : ns < 4294967296)
    (hL : |L| ≤ 2 ^ 20) :
    |fadd (fadd (fadd (fdiv (ms : ℚ) 1000) (fdiv (ns : ℚ) 1000000000)) (L : ℚ)) (L : ℚ)
      - ((ms : ℚ) / 1000 + (ns : ℚ) / 1000000000 + L + L)| ≤ 1 / 134217728 := by
  have hmsq : (ms : ℚ) < 4294967296 := by exact_mod_cast hms
  have hnsq : (ns : ℚ) < 4294967296 := by exact_mod_cast hns
  have hms0 : (0 : ℚ) ≤ (ms : ℚ) := Nat.cast_nonneg _
  have hns0 : (0 : ℚ) ≤ (ns : ℚ) := Nat.cast_nonneg _
  have hLq : |(L : ℚ)| ≤ 1048576 := by
    have : ((|L| : ℤ) : ℚ) ≤ ((2 ^ 20 : ℤ) : ℚ) := by exact_mod_cast hL
    rw [Int.cast_abs] at this
    norm_num at this
    exact this
  have hL2 := abs_le.mp hLq
  unfold fadd fdiv
  set a := roundDouble ((ms : ℚ) / 1000) with ha
  set b := roundDouble ((ns : ℚ) / 1000000000) with hb
  set c := roundDouble (a + b) with hc
  set t := roundDouble (c + (L : ℚ)) with ht
  set s := roundDouble (t + (L : ℚ)) with hs
  have ea : |a - (ms : ℚ) / 1000| ≤ 1 / 1073741824 := by
    apply roundDouble_err23
    rw [abs_le]; constructor <;> linarith
  have eb : |b - (ns : ℚ) / 1000000000| ≤ 1 / 1073741824 := by
    apply roundDouble_err23
    rw [abs_le]; constructor <;> linarith
  have ea' := abs_le.mp ea
  have eb' := abs_le.mp eb
  have ec : |c - (a + b)| ≤ 1 / 1073741824 := by
    apply roundDouble_err23
    rw [abs_le]; constructor <;> linarith
  have ec' := abs_le.mp ec
  have et : |t - (c + (L : ℚ))| ≤ 1 / 1073741824 := by
    apply roundDouble_err23
    rw [abs_le]; constructor <;> linarith
  have et' := abs_le.mp et
  have es : |s - (t + (L : ℚ))| ≤ 1 / 1073741824 := by
    apply roundDouble_err23
    rw [abs_le]; constructor <;> linarith
  have es' := abs_le.mp es
  rw [abs_le]; constructor <;> linarith

/-- The epoch is `M + 315964800` whenever the exact sum lies, with a margin for the earlier
roundings, in binade `e` and in the window that the final rounding sends into `[M, M + 1)` -/
theorem gpsToUnixWith_eq_of_window (ms ns W : ℕ) (L weeks e M : ℤ)
    (hms : ms < 4294967296) (hns : ns < 4294967296) (hW : W < 65536) (hL : |L| ≤ 2 ^ 20)
    (hw0 : 0 ≤ (W : ℤ) + weeks) (hw1 : (W : ℤ) + weeks ≤ 3550)
    (he : 0 ≤ e) (he2 : e ≤ 52)
    (h1 : (2 : ℚ) ^ e + 1 / 134217728 ≤
      (ms : ℚ) / 1000 + (ns : ℚ) / 1000000000 + L + L + (((W : ℤ) + weeks) * 604800 : ℤ))
    (h2 : (ms : ℚ) / 1000 + (ns : ℚ) / 1000000000 + L + L + (((W : ℤ) + weeks) * 604800 : ℤ)
      + 1 / 134217728 < (2 : ℚ) ^ (e + 1))
    (h3 : (M : ℚ) - 2 ^ (e - 53) + 1 / 134217728 <
      (ms : ℚ) / 1000 + (ns : ℚ) / 1000000000 + L + L + (((W : ℤ) + weeks) * 604800 : ℤ))
    (h4 : (ms : ℚ) / 1000 + (ns : ℚ) / 1000000000 + L + L + (((W : ℤ) + weeks) * 604800 : ℤ)
      + 1 / 134217728 < (M : ℚ) + 1 - 2 ^ (e - 53)) :
    gpsToUnixWith weeks (ms : ℚ) (ns : ℚ) (W : ℚ) (L : ℚ) = M + 315964800 := by
  rw [gpsToUnixWith_in_range hW hL hw0 hw1]
  have herr := abs_le.mp (towSum_error hms hns hL)
  set s := fadd (fadd (fadd (fdiv (ms : ℚ) 1000) (fdiv (ns : ℚ) 1000000000)) (L : ℚ)) (L : ℚ)
    with hs
  set K : ℤ := ((W : ℤ) + weeks) * 604800 with hK
  have hM : truncQ (roundDouble (s + (K : ℚ))) = M := by
    apply truncQ_roundDouble_eq (e := e) (by omega) he2 <;> linarith
  have hMlt2 : (M : ℚ) < 2 ^ (53 : ℤ) + 1 := by
    have a1 : (2 : ℚ) ^ (e - 53) ≤ 2 ^ (0 : ℤ) := zpow_le_zpow_right₀ (by norm_num) (by omega)
    have a2 : (2 : ℚ) ^ (e + 1) ≤ 2 ^ (53 : ℤ) := zpow_le_zpow_right₀ (by norm_num) (by omega)
    rw [zpow_zero] at a1
    linarith
  have hMgt : (0 : ℚ) < (M : ℚ) + 1 := by
    have : (0 : ℚ) < 2 ^ e := by positivity
    have : (0 : ℚ) < 2 ^ (e - 53) := by positivity
    linarith
  have hM1 : M < 9007199254740993 := by
    have : (M : ℚ) < ((9007199254740993 : ℤ) : ℚ) := by
      norm_num at hMlt2 ⊢
      exact hMlt2
    exact_mod_cast this
  have hM0 : -1 < M := by
    have : ((-1 : ℤ) : ℚ) < (M : ℚ) := by push_cast; linarith
    exact_mod_cast this
  unfold fadd castLong
  unfold fadd at hs
  rw [hM, wrap64_of_range (x := M) (by omega) (by omega),
    wrap64_of_range (x := M + 315964800) (by omega) (by omega)]

theorem wrap32_bounds (x : Int) : -2147483648 ≤ wrap32 x ∧ wrap32 x < 2147483648 := by
  unfold wrap32; omega

/-- On a whole second every double operation is exact, whatever the week product wrapped
to. -/
theorem gpsToUnixWith_whole_second_raw (k W : ℕ) (L weeks : ℤ)
    (hk : k < 4294968) (hW : W < 65536) (hL : |L| ≤ 2 ^ 20) :
    gpsToUnixWith weeks ((1000 * k : ℕ) : ℚ) ((0 : ℕ) : ℚ) (W : ℚ) (L : ℚ) =
      k + L + L + weekSeconds (iadd32 (W : ℤ) weeks) + 315964800 := by
  have hL' := abs_le.mp hL
  have c3 : castInt (L : ℚ) = L := castInt_intCast (by omega) (by omega)
  have c2 : castInt (W : ℚ) = (W : ℤ) := by
    have := castInt_intCast (n := (W : ℤ)) (by omega) (by omega)
    simpa using this
  unfold gpsToUnixWith
  simp only [c3, c2]
  set K : ℤ := weekSeconds (iadd32 (W : ℤ) weeks) with hK
  have hKb : -2147483648 ≤ K ∧ K < 2147483648 := by
    rw [hK]; unfold weekSeconds imul32; exact wrap32_bounds _
  have h1 : fdiv ((1000 * k : ℕ) : ℚ) 1000 = ((k : ℤ) : ℚ) := by
    unfold fdiv
    have : ((1000 * k : ℕ) : ℚ) / 1000 = ((k : ℤ) : ℚ) := by
      push_cast; field_simp
    rw [this]
    exact roundDouble_intCast _ (by rw [abs_lt]; constructor <;> omega)
  have h2 : fdiv ((0 : ℕ) : ℚ) 1000000000 = ((0 : ℤ) : ℚ) := by
    unfold fdiv
    simp [roundDouble_zero]
  have hadd : ∀ a b : ℤ, |a + b| < 2 ^ 53 → fadd (a : ℚ) (b : ℚ) = ((a + b : ℤ) : ℚ) := by
    intro a b h
    unfold fadd
    rw [← Int.cast_add]
    exact roundDouble_intCast _ h
  rw [h1, h2, hadd _ _ (by rw [abs_lt]; constructor <;> omega),
    hadd _ _ (by rw [abs_lt]; constructor <;> omega),
    hadd _ _ (by rw [abs_lt]; constructor <;> omega),
    hadd _ _ (by rw [abs_lt]; constructor <;> omega)]
  unfold castLong
  rw [truncQ_intCast]
  set v : ℤ := (k : ℤ) + 0 + L + L + K with hv
  rw [wrap64_of_range (x := v) (by omega) (by omega),
    wrap64_of_range (x := v + 315964800) (by omega) (by omega)]
  omega

/-- On a whole second, with the week product in range, the epoch is the exact sum. -/
theorem gpsToUnixWith_whole_second (k W : ℕ) (L weeks : ℤ)
    (hk : k < 4294968) (hW : W < 65536) (hL : |L| ≤ 2 ^ 20)
    (hw0 : 0 ≤ (W : ℤ) + weeks) (hw1 : (W : ℤ) + weeks ≤ 3550) :
    gpsToUnixWith weeks ((1000 * k : ℕ) : ℚ) ((0 : ℕ) : ℚ) (W : ℚ) (L : ℚ) =
      k + L + L + ((W : ℤ) + weeks) * 604800 + 315964800 := by
  rw [gpsToUnixWith_whole_second_raw k W L weeks hk hW hL]
  have hw : iadd32 (W : ℤ) weeks = (W : ℤ) + weeks := by
    unfold iadd32
    exact wrap32_of_range (by omega) (by omega)
  rw [hw, weekSeconds_of_range hw0 hw1]

theorem abs_truncQ_sub_lt (x : ℚ) : |(truncQ x : ℚ) - x| < 1 := by
  unfold truncQ
  split_ifs
  · have h1 := Int.floor_le x
    have h2 := Int.lt_floor_add_one x
    rw [abs_lt]; constructor <;> linarith
  · have h1 := Int.le_ceil x
    have h2 := Int.ceil_lt_add_one x
    rw [abs_lt]; constructor <;> linarith

/-- The epoch differs from the exact sum by less than the truncation plus the roundings. -/
theorem gpsToUnixWith_near_exact (ms ns W : ℕ) (L weeks : ℤ)
    (hms : ms < 4294967296) (hns : ns < 4294967296) (hW : W < 65536) (hL : |L| ≤ 2 ^ 20)
    (hw0 : 0 ≤ (W : ℤ) + weeks) (hw1 : (W : ℤ) + weeks ≤ 3550) :
    |((gpsToUnixWith weeks (ms : ℚ) (ns : ℚ) (W : ℚ) (L : ℚ) : ℤ) : ℚ) - 315964800
      - ((ms : ℚ) / 1000 + (ns : ℚ) / 1000000000 + L + L + (((W : ℤ) + weeks) * 604800 : ℤ))|
      < 1 + 1 / 1048576 := by
  rw [gpsToUnixWith_in_range hW hL hw0 hw1]
  have herr := abs_le.mp (towSum_error hms hns hL)
  set s := fadd (fadd (fadd (fdiv (ms : ℚ) 1000) (fdiv (ns : ℚ) 1000000000)) (L : ℚ)) (L : ℚ)
    with hs
  set K : ℤ := ((W : ℤ) + weeks) * 604800 with hK
  have hmsq : (ms : ℚ) < 4294967296 := by exact_mod_cast hms
  have hnsq : (ns : ℚ) < 4294967296 := by exact_mod_cast hns
  have hms0 : (0 : ℚ) ≤ (ms : ℚ) := Nat.cast_nonneg _
  have hns0 : (0 : ℚ) ≤ (ns : ℚ) := Nat.cast_nonneg _
  have hLq : |(L : ℚ)| ≤ 1048576 := by
    have : ((|L| : ℤ) : ℚ) ≤ ((2 ^ 20 : ℤ) : ℚ) := by exact_mod_cast hL
    rw [Int.cast_abs] at this
    norm_num at this
    exact this
  have hL2 := abs_le.mp hLq
  have hK0 : (0 : ℚ) ≤ (K : ℚ) := by
    have : 0 ≤ K := by omega
    exact_mod_cast this
  have hK1 : (K : ℚ) ≤ 2147040000 := by
    have : K ≤ 2147040000 := by omega
    exact_mod_cast this
  have hy : |s + (K : ℚ)| ≤ (2 : ℚ) ^ (32 : ℤ) := by
    norm_num
    rw [abs_le]; constructor <;> linarith
  have hr := abs_roundDouble_sub_le_of_abs_le (x := s + (K : ℚ)) (k := 32) (by norm_num) hy
  norm_num at hr
  have hr' := abs_le.mp hr
  unfold fadd castLong
  unfold fadd at hs
  set r := roundDouble (s + (K : ℚ)) with hrdef
  have ht := abs_lt.mp (abs_truncQ_sub_lt r)
  have hT0 : -2147483648 ≤ truncQ r := by
    have : ((-2147483648 : ℤ) : ℚ) < (truncQ r : ℚ) + 1 := by push_cast; linarith
    have : (-2147483648 : ℤ) < truncQ r + 1 := by exact_mod_cast this
    omega
  have hT1 : truncQ r ≤ 4294967296 := by
    have : (truncQ r : ℚ) - 1 < ((4294967296 : ℤ) : ℚ) := by push_cast; linarith
    have : truncQ r - 1 < (4294967296 : ℤ) := by exact_mod_cast this
    omega
  rw [wrap64_of_range (x := truncQ r) (by omega) (by omega),
    wrap64_of_range (x := truncQ r + 315964800) (by omega) (by omega)]
  push_cast
  rw [abs_lt]; constructor <;> linarith

/-- With a sub-second part of at least 0.9999999 s the double sum of `gpsToUnix` reaches the
next whole second before the cast, and the epoch is one more than the floor formula. -/
theorem gps_epoch_rounds_up (ms ns W : ℕ) (L : ℤ)
    (hms : ms < 4294967296) (hns : ns < 4294967296) (hW : W < 1024) (hL : |L| ≤ 2 ^ 20)
    (hfrac : 9999999 / 10000000 ≤ Int.fract ((ms : ℚ) / 1000 + (ns : ℚ) / 1000000000)) :
    gpsToUnix (ms : ℚ) (ns : ℚ) (W : ℚ) (L : ℚ) =
      ⌊(ms : ℚ) / 1000 + (ns : ℚ) / 1000000000 + L⌋ + L + ((W : ℤ) + 2048) * 7 * 24 * 3600
        + 315964800 + 1 := by
  have hx0 : (0 : ℚ) ≤ (ms : ℚ) / 1000 + (ns : ℚ) / 1000000000 := by positivity
  have hx1 : (ms : ℚ) / 1000 + (ns : ℚ) / 1000000000 < 4294972 := by
    have hmsq : (ms : ℚ) < 4294967296 := by exact_mod_cast hms
    have hnsq : (ns : ℚ) < 4294967296 := by exact_mod_cast hns
    linarith
  have win := fun M : ℤ => gpsToUnixWith_eq_of_window ms ns W L 2048 30 M hms hns (by omega) hL
    (by omega) (by omega) (by norm_num) (by norm_num)
  generalize (ms : ℚ) / 1000 + (ns : ℚ) / 1000000000 = x at hx0 hx1 win hfrac ⊢
  have hL2 := abs_le.mp (abs_cast_le_of_abs_le hL)
  have hWq : (W : ℚ) < 1024 := by exact_mod_cast hW
  have hW0 : (0 : ℚ) ≤ (W : ℚ) := Nat.cast_nonneg _
  have hsplit : (⌊x⌋ : ℚ) + Int.fract x = x := Int.floor_add_fract x
  have hf1 : Int.fract x < 1 := Int.fract_lt_one x
  rw [Int.floor_add_int x L]
  have := win (⌊x⌋ + L + L + ((W : ℤ) + 2048) * 604800 + 1)
    (by push_cast; norm_num; linarith) (by push_cast; norm_num; linarith)
    (by push_cast; norm_num; linarith) (by push_cast; norm_num; linarith)
  unfold gpsToUnix
  rw [this]
  ring

/-! ## Printing and parsing the epoch -/

theorem parseDigits_digits (ds : List Nat) (hd : ∀ d ∈ ds, d < 10) (rest : List Nat)
    (hrest : rest = [] ∨ ∃ c cs, rest = c :: cs ∧ isdigit c = false) (acc : Nat) :
    parseDigits (ds.map (fun d => d + 48) ++ rest) acc
      = ds.foldl (fun a d => a * 10 + d) acc := by
  induction ds generalizing acc with
  | nil =>
    rcases hrest with h | ⟨c, cs, h, hc⟩
    · subst h; simp [parseDigits]
    · subst h; simp [parseDigits, hc]
  | cons d ds ih =>
    have hd10 : d < 10 := hd d (List.mem_cons_self _ _)
    have hdig : isdigit (d + 48) = true := by
      simp [isdigit]; omega
    have e : parseDigits ((d + 48) :: (ds.map (fun d => d + 48) ++ rest)) acc
        = parseDigits (ds.map (fun d => d + 48) ++ rest) (acc * 10 + d) := by
      rw [parseDigits, if_pos hdig, Nat.add_sub_cancel]
    rw [List.map_cons, List.cons_append, e, List.foldl_cons]
    exact ih (fun x hx => hd x (List.mem_cons_of_mem _ hx)) _

theorem foldl_reverse_digits (L : List Nat) (acc : Nat) :
    L.reverse.foldl (fun a d => a * 10 + d) acc = acc * 10 ^ L.length + Nat.ofDigits 10 L := by
  induction L generalizing acc with
  | nil => simp
  | cons d L ih =>
    rw [List.reverse_cons, List.foldl_append, ih]
    simp [Nat.ofDigits_cons, pow_succ]
    ring

theorem parseDigits_decimalDigits (n : Nat) (rest : List Nat)
    (hrest : rest = [] ∨ ∃ c cs, rest = c :: cs ∧ isdigit c = false) :
    parseDigits (decimalDigits n ++ rest) 0 = n := by
  unfold decimalDigits
  split_ifs with h0
  · subst h0
    rcases hrest with h | ⟨c, cs, h, hc⟩
    · subst h; simp [parseDigits, isdigit]
    · subst h
      show parseDigits (48 :: c :: cs) 0 = 0
      rw [parseDigits, if_pos (by decide), parseDigits, hc]
      simp
  · rw [parseDigits_digits _ _ rest hrest, foldl_reverse_digits, Nat.ofDigits_digits]
    · simp
    · intro d hd
      rw [List.mem_reverse] at hd
      exact Nat.digits_lt_base (by norm_num) hd

theorem decimalDigits_length (n : Nat) (h : n < 10 ^ 19) : (decimalDigits n).length ≤ 19 := by
  unfold decimalDigits
  split_ifs with h0
  · simp
  · rw [List.length_map, List.length_reverse]
    rw [Nat.digits_len 10 n (by norm_num) h0]
    have := Nat.log_lt_of_lt_pow h0 h
    omega

theorem decimalDigits_head (n : Nat) :
    ∃ c cs, decimalDigits n = c :: cs ∧ isdigit c = true := by
  unfold decimalDigits
  split_ifs with h0
  · exact ⟨48, [], rfl, by decide⟩
  · have hne : (Nat.digits 10 n).reverse ≠ [] := by
      simpa using Nat.digits_ne_nil_iff_ne_zero.mpr h0
    obtain ⟨d, ds, hds⟩ := List.exists_cons_of_ne_nil hne
    have hd : d < 10 := by
      have : d ∈ (Nat.digits 10 n).reverse := by rw [hds]; exact List.mem_cons_self _ _
      rw [List.mem_reverse] at this
      exact Nat.digits_lt_base (by norm_num) this
    refine ⟨d + 48, ds.map (fun d => d + 48), ?_, ?_⟩
    · rw [hds]; rfl
    · simp [isdigit]; omega

theorem sprintf_ld_length (V : Int) (h1 : -9223372036854775808 ≤ V)
    (h2 : V < 9223372036854775808) : (sprintf_ld V).length ≤ 20 := by
  have hn : V.natAbs < 10 ^ 19 := by omega
  have := decimalDigits_length V.natAbs hn
  unfold sprintf_ld
  split_ifs
  · simp; omega
  · omega

theorem readInto_short (text : List Nat) (h : text.length ≤ 20) :
    readInto 1024 text = text ++ 0 :: List.replicate (1023 - text.length) 0 := by
  unfold readInto
  rw [List.take_of_length_le (by omega)]
  have : 1024 - text.length = (1023 - text.length) + 1 := by omega
  rw [this, List.replicate_succ]

theorem clampLong_of_range {v : Int} (h1 : -9223372036854775808 ≤ v)
    (h2 : v < 9223372036854775808) : clampLong v = v := by
  unfold clampLong
  split_ifs <;> omega

theorem atol_sprintf_ld (V : Int) (h1 : -9223372036854775808 ≤ V)
    (h2 : V < 9223372036854775808) : atol (readInto 1024 (sprintf_ld V)) = V := by
  rw [readInto_short _ (sprintf_ld_length V h1 h2)]
  set rest := 0 :: List.replicate (1023 - (sprintf_ld V).length) 0 with hrest
  have hr : rest = [] ∨ ∃ c cs, rest = c :: cs ∧ isdigit c = false :=
    Or.inr ⟨0, _, rfl, by decide⟩
  have hp := parseDigits_decimalDigits V.natAbs rest hr
  unfold sprintf_ld
  split_ifs with hneg
  · unfold atol
    rw [List.cons_append]
    have hs : skipSpace (45 :: (decimalDigits V.natAbs ++ rest))
        = 45 :: (decimalDigits V.natAbs ++ rest) := by
      rw [skipSpace, if_neg (by decide)]
    rw [hs]
    simp only [if_true]
    rw [hp, clampLong_of_range (by omega) (by omega)]
    omega
  · obtain ⟨c, cs, hc, hdig⟩ := decimalDigits_head V.natAbs
    have hcb : 48 ≤ c ∧ c ≤ 57 := by
      simpa [isdigit] using hdig
    unfold atol
    rw [hc, List.cons_append] at hp ⊢
    have hs : skipSpace (c :: (cs ++ rest)) = c :: (cs ++ rest) := by
      rw [skipSpace, if_neg]
      simp [isspace]; omega
    rw [hs]
    simp only
    rw [if_neg (by omega), if_neg (by omega), hp, clampLong_of_range (by omega) (by omega)]
    omega

/-! ## The loops -/

theorem mem_cycles {k : Nat} {block : List Event} {e : Event} (h : e ∈ cycles k block) :
    e ∈ block := by
  induction k with
  | zero => simp [cycles] at h
  | succ k ih =>
    simp only [cycles, List.mem_append] at h
    rcases h with h | h
    · exact h
    · exact ih h

/-- After `k` failed connects that do not use up the budget the loop goes on with the
counter raised by `k`. -/
theorem connectLoop_fail_steps (timeout : Int) (ht : timeout < 2147483647) :
    ∀ (k : Nat) (w : Int) (rest : List Int), 0 ≤ w → w + k ≤ timeout →
      connectLoop timeout (List.replicate k (-1) ++ rest) w
        = (cycles k [Event.connect (-1), Event.sleep 1] ++ (connectLoop timeout rest (w + k)).1,
            (connectLoop timeout rest (w + k)).2) := by
  intro k
  induction k with
  | zero => intro w rest _ _; simp [cycles]
  | succ k ih =>
    intro w rest hw hk
    have hinc : iadd32 w 1 = w + 1 := by
      unfold iadd32; exact wrap32_of_range (by omega) (by omega)
    rw [List.replicate_succ, List.cons_append, connectLoop, if_pos (by norm_num), hinc,
      if_neg (by push_cast at hk; omega)]
    simp only
    rw [ih (w + 1) rest (by omega) (by push_cast at hk ⊢; omega)]
    simp only [cycles, List.cons_append, List.nil_append]
    have : w + 1 + (k : Int) = w + ((k + 1 : Nat) : Int) := by push_cast; ring
    rw [this]

/-- One full cycle of the connect loop against an unreachable server. -/
theorem connectLoop_cycle (timeout : Int) (h0 : 0 ≤ timeout) (ht : timeout < 2147483647)
    (rest : List Int) :
    connectLoop timeout (List.replicate (timeout.toNat + 1) (-1) ++ rest) 0
      = (cycles (timeout.toNat + 1) [Event.connect (-1), Event.sleep 1] ++
          [Event.syslog Priority.LOG_WARNING (Msg.connectionTimeout (imul32 timeout 10)),
            Event.sleep (imul32 timeout 10)] ++ (connectLoop timeout rest 0).1,
          (connectLoop timeout rest 0).2) := by
  have hsplit : List.replicate (timeout.toNat + 1) (-1 : Int) ++ rest
      = List.replicate timeout.toNat (-1) ++ ((-1) :: rest) := by
    rw [List.replicate_succ', List.append_assoc]; rfl
  have hcyc : ∀ k : Nat, cycles (k + 1) [Event.connect (-1), Event.sleep 1]
      = cycles k [Event.connect (-1), Event.sleep 1] ++ [Event.connect (-1), Event.sleep 1] := by
    intro k
    induction k with
    | zero => simp [cycles]
    | succ k ih =>
      conv_lhs => rw [cycles, ih]
      simp [cycles]
  rw [hsplit, connectLoop_fail_steps timeout ht timeout.toNat 0 _ le_rfl (by omega)]
  have hw : (0 : Int) + (timeout.toNat : Int) = timeout := by omega
  rw [hw, connectLoop, if_pos (by norm_num)]
  have hinc : iadd32 timeout 1 = timeout + 1 := by
    unfold iadd32; exact wrap32_of_range (by omega) (by omega)
  rw [hinc, if_pos (by omega), hcyc]
  simp

/-- After `k` failed polls inside the budget the loop goes on with the counter raised by
`k`. -/
theorem pollGps_fail_steps (env : ServerEnv) (ht : env.timeout < 2147483647) :
    ∀ (k fuel calls : Nat) (w : Int) (r : PollResult), 0 ≤ w → w + k ≤ env.timeout + 1 →
      (∀ i, i < k → env.decodeSingleMessage (calls + i) = none) →
      pollGps env fuel (calls + k) (w + k) = some r →
      pollGps env (fuel + k) calls w
        = some ⟨cycles k [Event.decodeSingleMessage false, Event.sleep 1] ++ r.events,
            r.wait_cnt, r.exited⟩ := by
  intro k
  induction k with
  | zero =>
    intro fuel calls w r _ _ _ h
    simpa [cycles] using h
  | succ k ih =>
    intro fuel calls w r hw hk hnone h
    have hinc : iadd32 w 1 = w + 1 := by
      unfold iadd32; exact wrap32_of_range (by omega) (by omega)
    have h0 : env.decodeSingleMessage calls = none := by
      simpa using hnone 0 (by omega)
    have hstep : pollGps env (fuel + k) (calls + 1) (w + 1)
        = some ⟨cycles k [Event.decodeSingleMessage false, Event.sleep 1] ++ r.events,
            r.wait_cnt, r.exited⟩ := by
      apply ih fuel (calls + 1) (w + 1) r (by omega) (by push_cast at hk ⊢; omega)
      · intro i hi
        have := hnone (i + 1) (by omega)
        rw [← this]; congr 1; omega
      · rw [← h]; congr 1
        · omega
        · push_cast; ring
    have hfuel : fuel + (k + 1) = (fuel + k) + 1 := by omega
    rw [hfuel, pollGps, if_pos (by push_cast at hk; omega), h0]
    simp only
    rw [hinc, hstep]
    simp [cycles]

theorem pollGps_done (env : ServerEnv) (fuel calls : Nat) (w : Int) (h : env.timeout < w) :
    pollGps env fuel calls w = some ⟨[], w, false⟩ := by
  cases fuel with
  | zero => rw [pollGps, if_neg (by omega)]
  | succ n => rw [pollGps, if_neg (by omega)]

/-- When every poll of the budget fails there are `timeout + 1` calls, then the loop ends. -/
theorem pollGps_all_fail (env : ServerEnv) (fuel : Nat) (h0 : 0 ≤ env.timeout)
    (ht : env.timeout < 2147483647) (hfuel : env.timeout + 1 ≤ fuel)
    (hnone : ∀ i : Nat, (i : Int) ≤ env.timeout → env.decodeSingleMessage i = none) :
    pollGps env fuel 0 0
      = some ⟨cycles (env.timeout.toNat + 1) [Event.decodeSingleMessage false, Event.sleep 1],
          env.timeout + 1, false⟩ := by
  obtain ⟨f, hf⟩ : ∃ f, fuel = f + (env.timeout.toNat + 1) :=
    ⟨fuel - (env.timeout.toNat + 1), by omega⟩
  have hcast : ((env.timeout.toNat + 1 : Nat) : Int) = env.timeout + 1 := by omega
  have := pollGps_fail_steps env ht (env.timeout.toNat + 1) f 0 0 ⟨[], env.timeout + 1, false⟩
    le_rfl (by omega) (by intro i hi; rw [Nat.zero_add]; exact hnone i (by omega))
    (by rw [hcast, zero_add, zero_add]; exact pollGps_done env f _ (env.timeout + 1) (by omega))
  rw [hf, this]
  simp

/-- The trace when the first fix comes at call `k` within the budget. -/
theorem pollGps_first_fix (env : ServerEnv) (fuel k : Nat) (g : GpsData)
    (ht : env.timeout < 2147483647) (hk : (k : Int) ≤ env.timeout) (hfuel : env.timeout + 1 ≤ fuel)
    (hnone : ∀ i, i < k → env.decodeSingleMessage i = none)
    (hsome : env.decodeSingleMessage k = some g) :
    pollGps env fuel 0 0
      = some ⟨cycles k [Event.decodeSingleMessage false, Event.sleep 1] ++
          ([Event.decodeSingleMessage true,
            Event.syslog Priority.LOG_INFO
              (Msg.obtainedGpsEpoch (gpsToUnix g.tow_ms g.tow_ns g.week g.leap)),
            Event.settimeofday (gpsToUnix g.tow_ms g.tow_ns g.week g.leap) 0
              env.settimeofday_ret] ++
            (if env.settimeofday_ret < 0 then
              exit_daemon Priority.LOG_ERR Msg.couldNotSetSystemTimeGps
            else [Event.syslog Priority.LOG_INFO Msg.setSystemTimeGps])),
          k, decide (env.settimeofday_ret < 0)⟩ := by
  obtain ⟨f, hf⟩ : ∃ f, fuel = (f + 1) + k := ⟨fuel - (k + 1), by omega⟩
  have hlast : pollGps env (f + 1) (0 + k) (0 + (k : Int))
      = some ⟨[Event.decodeSingleMessage true,
            Event.syslog Priority.LOG_INFO
              (Msg.obtainedGpsEpoch (gpsToUnix g.tow_ms g.tow_ns g.week g.leap)),
            Event.settimeofday (gpsToUnix g.tow_ms g.tow_ns g.week g.leap) 0
              env.settimeofday_ret] ++
            (if env.settimeofday_ret < 0 then
              exit_daemon Priority.LOG_ERR Msg.couldNotSetSystemTimeGps
            else [Event.syslog Priority.LOG_INFO Msg.setSystemTimeGps]),
          k, decide (env.settimeofday_ret < 0)⟩ := by
    rw [Nat.zero_add, zero_add, pollGps, if_pos hk, hsome]
    simp only
    split_ifs with hs <;> simp [hs]
  have := pollGps_fail_steps env ht k (f + 1) 0 0 _ le_rfl (by omega)
    (by intro i hi; rw [Nat.zero_add]; exact hnone i hi) hlast
  rw [hf, this]

theorem count_cycles_pair (k : Nat) (a b : Event) (hab : a ≠ b) :
    (cycles k [a, b]).count a = k := by
  induction k with
  | zero => simp [cycles]
  | succ k ih =>
    rw [cycles, List.count_append, ih]
    have : List.count a [a, b] = 1 := by
      simp [List.count_cons, hab.symm]
    omega

theorem acceptLoop_quiet (l : List Connection) :
    Event.exit_failure ∉ acceptLoop l ∧ (∀ fd n r, Event.read fd n r ∉ acceptLoop l)
      ∧ (∀ s u r, Event.settimeofday s u r ∉ acceptLoop l)
      ∧ (∀ fd, Event.close fd ∉ acceptLoop l) := by
  induction l with
  | nil => simp [acceptLoop]
  | cons c l ih =>
    obtain ⟨h1, h2, h3, h4⟩ := ih
    refine ⟨?_, ?_, ?_, ?_⟩
    · rw [acceptLoop]; split_ifs <;> simp [h1]
    · intro fd n r; rw [acceptLoop]; split_ifs <;> simp [h2 fd n r]
    · intro s u r; rw [acceptLoop]; split_ifs <;> simp [h3 s u r]
    · intro fd; rw [acceptLoop]; split_ifs <;> simp [h4 fd]

/-- While nothing is closed, the sockets handed out by `accept` stay within the limit. -/
theorem descriptorsAllow_bound (limit : Nat) (tr : List Event) :
    ∀ open_fds : Nat, open_fds ≤ limit → (∀ fd, Event.close fd ∉ tr) →
      descriptorsAllow limit open_fds tr = true → open_fds + acceptedCount tr ≤ limit := by
  induction tr with
  | nil => intro n hn _ _; simpa [acceptedCount] using hn
  | cons e es ih =>
    intro n hn hclose hrule
    have hclose2 : ∀ fd, Event.close fd ∉ es := fun fd h => hclose fd (List.mem_cons_of_mem _ h)
    cases e with
    | accept ret =>
      by_cases hr : 0 ≤ ret
      · simp only [descriptorsAllow, if_pos hr, Bool.and_eq_true, decide_eq_true_eq] at hrule
        have := ih (n + 1) (by omega) hclose2 hrule.2
        simp only [acceptedCount, if_pos hr]; omega
      · simp only [descriptorsAllow, if_neg hr] at hrule
        have := ih n hn hclose2 hrule
        simp only [acceptedCount, if_neg hr]; omega
    | close fd => exact absurd (List.mem_cons_self _ _) (hclose fd)
    | _ =>
      simp only [descriptorsAllow] at hrule
      have := ih n hn hclose2 hrule
      simpa only [acceptedCount] using this

/-- Every byte written by `sprintf_ld` is the minus sign or a digit. -/
theorem mem_sprintf_ld {v : Int} {c : Nat} (h : c ∈ sprintf_ld v) : c = 45 ∨ isdigit c = true := by
  have hd : ∀ n : Nat, c ∈ decimalDigits n → isdigit c = true := by
    intro n hc
    unfold decimalDigits at hc
    split_ifs at hc
    · simp at hc; subst hc; decide
    · simp only [List.mem_map, List.mem_reverse] at hc
      obtain ⟨d, hd, rfl⟩ := hc
      have := Nat.digits_lt_base (by norm_num : 1 < 10) hd
      simp [isdigit]; omega
  unfold sprintf_ld at h
  split_ifs at h
  · rcases List.mem_cons.mp h with h | h
    · exact Or.inl h
    · exact Or.inr (hd _ h)
  · exact Or.inr (hd _ h)

theorem serveClients_no_settimeofday (env : ServerEnv) (s u r : Int) :
    Event.settimeofday s u r ∉ serveClients env := by
  have h := (acceptLoop_quiet env.connections).2.2.1 s u r
  unfold serveClients
  split_ifs <;> simp [exit_daemon, h]

theorem serveClients_head (env : ServerEnv) :
    (serveClients env).head? = some (Event.socket env.socket_ret) := by
  unfold serveClients
  split_ifs <;> rfl


/-- With no fix in the budget the loop ends with the counter past the budget. -/
theorem pollGps_no_fix (env : ServerEnv) (fuel : Nat) (ht : env.timeout < 2147483647)
    (hfuel : env.timeout + 1 ≤ fuel)
    (hnone : ∀ i : Nat, (i : Int) ≤ env.timeout → env.decodeSingleMessage i = none) :
    ∃ k w, pollGps env fuel 0 0
        = some ⟨cycles k [Event.decodeSingleMessage false, Event.sleep 1], w, false⟩
      ∧ env.timeout < w := by
  by_cases h0 : 0 ≤ env.timeout
  · exact ⟨_, _, pollGps_all_fail env fuel h0 ht hfuel hnone, by omega⟩
  · exact ⟨0, 0, by rw [pollGps_done env fuel 0 0 (by omega)]; simp [cycles], by omega⟩


theorem connectLoop_quiet (timeout : Int) (rets : List Int) :
    ∀ w : Int, Event.exit_failure ∉ (connectLoop timeout rets w).1
      ∧ ∀ s u r, Event.settimeofday s u r ∉ (connectLoop timeout rets w).1 := by
  induction rets with
  | nil => intro w; simp [connectLoop]
  | cons r rest ih =>
    intro w
    rw [connectLoop]
    split_ifs
    · have := ih 0
      simp [this.1, this.2]
    · have := ih (iadd32 w 1)
      simp [this.1, this.2]
    · simp

/-- A reply that does not start with a number is read as 0. -/
theorem atol_readInto_of_no_number (received : List Nat)
    (hbad : received = [] ∨ ∃ c cs, received = c :: cs ∧ isspace c = false
      ∧ isdigit c = false ∧ c ≠ 43 ∧ c ≠ 45) :
    atol (readInto 1024 received) = 0 := by
  rcases hbad with h | ⟨c, cs, h, hsp, hdig, h43, h45⟩
  · subst h
    have : readInto 1024 [] = 0 :: List.replicate 1023 0 := by
      unfold readInto
      rw [List.take_nil, List.nil_append]
      rfl
    rw [this]
    unfold atol
    rw [skipSpace, if_neg (by decide)]
    simp only
    rw [if_neg (by decide), if_neg (by decide), parseDigits, if_neg (by decide)]
    rfl
  · subst h
    have : readInto 1024 (c :: cs)
        = c :: (cs.take 1023 ++ List.replicate (1024 - (c :: cs).length) 0) := by
      unfold readInto
      simp
    rw [this]
    unfold atol
    rw [skipSpace, if_neg (by simp [hsp])]
    simp only
    rw [if_neg h45, if_neg h43, parseDigits, if_neg (by simp [hdig])]
    rfl

/-- The trace of the client once a connect succeeded. -/
theorem client_daemon_connected (env : ClientEnv) (hsock : 0 ≤ env.socket_ret)
    (hpton : 0 < env.inet_pton_ret) (hconn : (connectLoop env.timeout env.connect_rets 0).2 = true) :
    timesync_client_daemon env
      = [Event.syslog Priority.LOG_DEBUG Msg.creatingSocket, Event.socket env.socket_ret,
          Event.inet_pton env.inet_pton_ret, Event.syslog Priority.LOG_DEBUG Msg.serverAddress,
          Event.syslog Priority.LOG_DEBUG (Msg.willAttempt env.timeout)] ++
        (connectLoop env.timeout env.connect_rets 0).1 ++ exchange env := by
  unfold timesync_client_daemon
  rw [if_neg (by omega), if_neg (by omega)]
  simp [hconn]


/-! ## The claims -/

/-- C1: for every raw week number W in 0..1023, the conversion of the fix
time_of_week_ms = 0, time_of_week_ns_remainder = 0, week_number_raw = W, leap_seconds = 18
(with the built-in 2048 weeks of rollover) yields exactly
315964800 + 18 + (W + 2048) * 604800 + 18; for W = 0 this is 1554595236. -/
theorem gps_epoch_zero_time_of_week (W : ℕ) (hW : W < 1024) :
    gpsToUnix 0 0 (W : ℚ) 18 = 315964800 + 18 + ((W : ℤ) + 2048) * 604800 + 18
      ∧ gpsToUnix 0 0 0 18 = 1554595236 := by
  have key : ∀ V : ℕ, V < 1024 →
      gpsToUnix 0 0 (V : ℚ) 18 = 315964800 + 18 + ((V : ℤ) + 2048) * 604800 + 18 := by
    intro V hV
    have h := gpsToUnixWith_whole_second 0 V 18 2048
      (by norm_num) (by omega) (by norm_num) (by omega) (by omega)
    unfold gpsToUnix
    norm_num at h ⊢
    rw [h]
    ring
  refine ⟨key W hW, ?_⟩
  have h0 := key 0 (by norm_num)
  norm_num at h0 ⊢
  exact h0

/-- The last raw week before the counter wraps, W = 1023. -/
theorem gps_epoch_zero_time_of_week_witness :
    gpsToUnix 0 0 ((1023 : ℕ) : ℚ) 18 = 315964800 + 18 + (((1023 : ℕ) : ℤ) + 2048) * 604800 + 18
      ∧ gpsToUnix 0 0 0 18 = 1554595236 :=
  gps_epoch_zero_time_of_week 1023 (by decide)

/-- C2 (counterexample): for the fix tow_ms = 999, tow_ns = 999999, week_number_raw = 0,
leap_seconds = 18 the code's epoch is 1554595237, one second more than
floor(tow_ms/1000 + tow_ns/1e9 + leap) + leap + (0 + 2048)*7*24*3600 + 315964800 = 1554595236:
the double sum 1238630436.999999999 is not representable and rounds to 1238630437.0 before
the cast to long. -/
theorem gps_epoch_floor_formula_fails :
    gpsToUnix 999 999999 0 18 = 1554595237 ∧
    gpsToUnix 999 999999 0 18 ≠
      ⌊(999 : ℚ) / 1000 + 999999 / 1000000000 + 18⌋ + 18 + (0 + 2048) * 7 * 24 * 3600
        + 315964800 := by
  have h : gpsToUnix 999 999999 0 18 = 1554595237 := by
    have := gpsToUnixWith_eq_of_window 999 999999 0 18 2048 30 1238630437
      (by norm_num) (by norm_num) (by norm_num)
      (by norm_num) (by norm_num) (by norm_num) (by norm_num) (by norm_num) (by norm_num)
      (by norm_num) (by norm_num) (by norm_num)
    unfold gpsToUnix
    norm_num at this ⊢
    exact this
  have f : ⌊(999 : ℚ) / 1000 + 999999 / 1000000000 + 18⌋ = 18 := by
    rw [Int.floor_eq_iff]
    norm_num
  refine ⟨h, ?_⟩
  rw [h, f]
  norm_num

/-- C2 (amended): for every fix with 32-bit time-of-week fields, week_number_raw in 0..1023
and |leap_seconds| at most 2^20, whose sub-second part (the fractional part of
tow_ms/1000 + tow_ns/1e9) is at most 0.999999 s, the epoch computed by the code equals
floor(tow_ms/1000 + tow_ns/1e9 + leap) + leap + (week_number_raw + 2048)*7*24*3600
+ 315964800. -/
theorem gps_epoch_floor_formula (ms ns W : ℕ) (L : ℤ)
    (hms : ms < 4294967296) (hns : ns < 4294967296) (hW : W < 1024) (hL : |L| ≤ 2 ^ 20)
    (hfrac : Int.fract ((ms : ℚ) / 1000 + (ns : ℚ) / 1000000000) ≤ 999999 / 1000000) :
    gpsToUnix (ms : ℚ) (ns : ℚ) (W : ℚ) (L : ℚ) =
      ⌊(ms : ℚ) / 1000 + (ns : ℚ) / 1000000000 + L⌋ + L + ((W : ℤ) + 2048) * 7 * 24 * 3600
        + 315964800 := by
  have hx0 : (0 : ℚ) ≤ (ms : ℚ) / 1000 + (ns : ℚ) / 1000000000 := by positivity
  have hx1 : (ms : ℚ) / 1000 + (ns : ℚ) / 1000000000 < 4294972 := by
    have hmsq : (ms : ℚ) < 4294967296 := by exact_mod_cast hms
    have hnsq : (ns : ℚ) < 4294967296 := by exact_mod_cast hns
    linarith
  have win := fun M : ℤ => gpsToUnixWith_eq_of_window ms ns W L 2048 30 M hms hns (by omega) hL
    (by omega) (by omega) (by norm_num) (by norm_num)
  generalize (ms : ℚ) / 1000 + (ns : ℚ) / 1000000000 = x at hx0 hx1 win hfrac ⊢
  have hL2 := abs_le.mp (abs_cast_le_of_abs_le hL)
  have hWq : (W : ℚ) < 1024 := by exact_mod_cast hW
  have hW0 : (0 : ℚ) ≤ (W : ℚ) := Nat.cast_nonneg _
  have hsplit : (⌊x⌋ : ℚ) + Int.fract x = x := Int.floor_add_fract x
  have hf0 : 0 ≤ Int.fract x := Int.fract_nonneg x
  rw [Int.floor_add_int x L]
  have := win (⌊x⌋ + L + L + ((W : ℤ) + 2048) * 604800)
    (by push_cast; norm_num; linarith) (by push_cast; norm_num; linarith)
    (by push_cast; norm_num; linarith) (by push_cast; norm_num; linarith)
  unfold gpsToUnix
  rw [this]
  ring

/-- A fix half a millisecond before the next second: tow_ms = 999, tow_ns = 500000. -/
theorem gps_epoch_floor_formula_witness :
    gpsToUnix ((999 : ℕ) : ℚ) ((500000 : ℕ) : ℚ) ((0 : ℕ) : ℚ) ((18 : ℤ) : ℚ) =
      ⌊((999 : ℕ) : ℚ) / 1000 + ((500000 : ℕ) : ℚ) / 1000000000 + ((18 : ℤ) : ℚ)⌋ + 18
        + (((0 : ℕ) : ℤ) + 2048) * 7 * 24 * 3600 + 315964800 :=
  gps_epoch_floor_formula 999 500000 0 18 (by norm_num) (by norm_num) (by norm_num)
    (by norm_num)
    (by rw [Int.fract_eq_self.mpr ⟨by norm_num, by norm_num⟩]; norm_num)

/-- C3: for every signed 64-bit value V, the text the server writes for clock value V with
sprintf "%ld" fits, with its terminating NUL, the server's 100-byte buffer and is shorter
than the client's 1024-byte buffer; the server sends exactly that text; atol of the client's
buffer after reading it is V; and the client calls settimeofday with tv_sec = V and
tv_usec = 0. -/
theorem exchange_round_trip (V : Int) (h1 : -9223372036854775808 ≤ V)
    (h2 : V < 9223372036854775808) (c : Connection) (env : ClientEnv) :
    (sprintf_ld V).length + 1 ≤ 100
    ∧ (sprintf_ld V).length < 1024
    ∧ Event.send c.accept_ret (sprintf_ld V) c.send_ret
        ∈ acceptLoop [{ c with now := V }]
    ∧ atol (readInto 1024 (sprintf_ld V)) = V
    ∧ Event.settimeofday V 0 env.settimeofday_ret
        ∈ exchange { env with received := sprintf_ld V } := by
  have hlen := sprintf_ld_length V h1 h2
  have hrt := atol_sprintf_ld V h1 h2
  refine ⟨by omega, by omega, ?_, hrt, ?_⟩
  · simp [acceptLoop]
  · unfold exchange
    simp only [hrt]
    simp

/-- The longest text, that of LONG_MIN. -/
theorem exchange_round_trip_witness :
    (sprintf_ld (-9223372036854775808)).length + 1 ≤ 100
    ∧ (sprintf_ld (-9223372036854775808)).length < 1024
    ∧ Event.send sampleConnection.accept_ret (sprintf_ld (-9223372036854775808))
        sampleConnection.send_ret
        ∈ acceptLoop [{ sampleConnection with now := -9223372036854775808 }]
    ∧ atol (readInto 1024 (sprintf_ld (-9223372036854775808))) = -9223372036854775808
    ∧ Event.settimeofday (-9223372036854775808) 0 sampleClientEnv.settimeofday_ret
        ∈ exchange { sampleClientEnv with received := sprintf_ld (-9223372036854775808) } :=
  exchange_round_trip (-9223372036854775808) (by decide) (by decide) sampleConnection
    sampleClientEnv

/-- C4: the connect loop against a server that refuses every connect, for a positive
timeout: one cycle is timeout + 1 failed connects (not timeout), each followed by sleep(1)
and by no other sleep, then the warning and sleep(timeout*10), after which the loop goes on
from counter 0 with the remaining connects. -/
theorem connect_attempts_per_cycle (timeout : Int) (h0 : 0 < timeout)
    (ht : timeout < 214748364) (rest : List Int) :
    connectLoop timeout (List.replicate (timeout.toNat + 1) (-1) ++ rest) 0
      = (cycles (timeout.toNat + 1) [Event.connect (-1), Event.sleep 1] ++
          [Event.syslog Priority.LOG_WARNING (Msg.connectionTimeout (timeout * 10)),
            Event.sleep (timeout * 10)] ++ (connectLoop timeout rest 0).1,
          (connectLoop timeout rest 0).2)
    ∧ (((cycles (timeout.toNat + 1) [Event.connect (-1), Event.sleep 1]).count
          (Event.connect (-1)) : Nat) : Int) = timeout + 1
    ∧ (∀ s, s ≠ 1 →
        Event.sleep s ∉ cycles (timeout.toNat + 1) [Event.connect (-1), Event.sleep 1]) := by
  have hm : imul32 timeout 10 = timeout * 10 := by
    unfold imul32; exact wrap32_of_range (by omega) (by omega)
  refine ⟨?_, ?_, ?_⟩
  · rw [connectLoop_cycle timeout h0.le (by omega) rest, hm]
  · rw [count_cycles_pair _ _ _ (by simp)]
    omega
  · intro s hs hmem
    have := mem_cycles hmem
    simp at this
    exact hs this

/-- With timeout = 1 the first cycle is two failed connects, then sleep(10). -/
theorem connect_attempts_per_cycle_witness :
    connectLoop 1 (List.replicate ((1 : Int).toNat + 1) (-1) ++ [0]) 0
      = (cycles ((1 : Int).toNat + 1) [Event.connect (-1), Event.sleep 1] ++
          [Event.syslog Priority.LOG_WARNING (Msg.connectionTimeout (1 * 10)),
            Event.sleep (1 * 10)] ++ (connectLoop 1 [0] 0).1,
          (connectLoop 1 [0] 0).2)
    ∧ (((cycles ((1 : Int).toNat + 1) [Event.connect (-1), Event.sleep 1]).count
          (Event.connect (-1)) : Nat) : Int) = 1 + 1
    ∧ (∀ s, s ≠ 1 →
        Event.sleep s ∉ cycles ((1 : Int).toNat + 1) [Event.connect (-1), Event.sleep 1]) :=
  connect_attempts_per_cycle 1 (by decide) (by decide) [0]

/-- C5: with no fix decoded during the budget, for a non-negative timeout the polling loop
of the server returns after calling decodeSingleMessage timeout + 1 times (not at most
timeout), each call followed by sleep(1); no call succeeded and the daemon did not exit. -/
theorem gps_poll_budget (env : ServerEnv) (fuel : Nat) (h0 : 0 ≤ env.timeout)
    (ht : env.timeout < 2147483647) (hfuel : env.timeout + 1 ≤ fuel)
    (hnone : ∀ i : Nat, (i : Int) ≤ env.timeout → env.decodeSingleMessage i = none) :
    ∃ r, pollGps env fuel 0 0 = some r
      ∧ r.events = cycles (env.timeout.toNat + 1) [Event.decodeSingleMessage false, Event.sleep 1]
      ∧ ((r.events.count (Event.decodeSingleMessage false) : Nat) : Int) = env.timeout + 1
      ∧ (∀ ok, ok ≠ false → r.events.count (Event.decodeSingleMessage ok) = 0)
      ∧ r.exited = false := by
  refine ⟨_, pollGps_all_fail env fuel h0 ht hfuel hnone, rfl, ?_, ?_, rfl⟩
  · simp only
    rw [count_cycles_pair _ _ _ (by simp)]
    omega
  · intro ok hok
    simp only
    rw [List.count_eq_zero]
    intro hmem
    have := mem_cycles hmem
    simp at this
    exact hok this

/-- With timeout = 2 and no fix there are three polls. -/
theorem gps_poll_budget_witness :
    ∃ r, pollGps noFixEnv 3 0 0 = some r
      ∧ r.events = cycles (noFixEnv.timeout.toNat + 1)
          [Event.decodeSingleMessage false, Event.sleep 1]
      ∧ ((r.events.count (Event.decodeSingleMessage false) : Nat) : Int) = noFixEnv.timeout + 1
      ∧ (∀ ok, ok ≠ false → r.events.count (Event.decodeSingleMessage ok) = 0)
      ∧ r.exited = false :=
  gps_poll_budget noFixEnv 3 (by decide) (by decide) (by decide) (fun _ _ => rfl)

/-- C6 (counterexample): the reply `1700000000abc` is not the decimal text of any integer,
yet the client that receives it calls settimeofday(1700000000, 0) and, settimeofday
succeeding, never reaches exit(EXIT_FAILURE). -/
theorem parse_failure_is_not_fatal :
    (∀ v : Int, sprintf_ld v ≠ garbledReplyEnv.received)
    ∧ Event.settimeofday 1700000000 0 0 ∈ timesync_client_daemon garbledReplyEnv
    ∧ Event.exit_failure ∉ timesync_client_daemon garbledReplyEnv := by
  have hz : atol (readInto 1024 garbledReplyEnv.received) = 1700000000 := by
    have hr : readInto 1024 garbledReplyEnv.received
        = [49, 55, 48, 48, 48, 48, 48, 48, 48, 48, 97, 98, 99] ++ List.replicate 1011 0 := by
      unfold readInto
      rw [List.take_of_length_le (by decide)]
      rfl
    rw [hr]
    generalize List.replicate 1011 0 = tail
    unfold atol
    simp [skipSpace, isspace, parseDigits, isdigit, clampLong]
  have hq := connectLoop_quiet garbledReplyEnv.timeout garbledReplyEnv.connect_rets 0
  rw [client_daemon_connected garbledReplyEnv (by decide) (by decide) (by decide)]
  refine ⟨?_, ?_, ?_⟩
  · intro v hv
    have hmem : (97 : Nat) ∈ sprintf_ld v := by
      rw [hv]; decide
    rcases mem_sprintf_ld hmem with h | h
    · exact absurd h (by decide)
    · exact absurd h (by decide)
  · refine List.mem_append_right _ ?_
    simp [exchange, hz]
    exact Or.inl rfl
  · have hs : ¬ garbledReplyEnv.settimeofday_ret < 0 := by decide
    simp [exchange, hz, hs, hq.1]

/-- C6 (amended): for every response buffer, decimal text of an integer or not, the
connected client calls settimeofday, and only with tv_sec = atol(buffer) (the leading
decimal number, 0 for the empty reply) and tv_usec = 0; the invocation ends in
exit(EXIT_FAILURE) exactly when settimeofday itself fails. -/
theorem unparsable_reply_sets_clock (env : ClientEnv) (hsock : 0 ≤ env.socket_ret)
    (hpton : 0 < env.inet_pton_ret)
    (hconn : (connectLoop env.timeout env.connect_rets 0).2 = true) :
    Event.settimeofday (atol (readInto 1024 env.received)) 0 env.settimeofday_ret
        ∈ timesync_client_daemon env
    ∧ (∀ s u r, Event.settimeofday s u r ∈ timesync_client_daemon env →
        s = atol (readInto 1024 env.received) ∧ u = 0 ∧ r = env.settimeofday_ret)
    ∧ (Event.exit_failure ∈ timesync_client_daemon env ↔ env.settimeofday_ret < 0)
    ∧ atol (readInto 1024 []) = 0 := by
  have hq := connectLoop_quiet env.timeout env.connect_rets 0
  rw [client_daemon_connected env hsock hpton hconn]
  refine ⟨?_, ?_, ?_, atol_readInto_of_no_number [] (Or.inl rfl)⟩
  · simp [exchange]
  · intro s u r hmem
    simp only [List.mem_append] at hmem
    rcases hmem with (hmem | hmem) | hmem
    · simp at hmem
    · exact absurd hmem (hq.2 s u r)
    · unfold exchange at hmem
      simp only [List.mem_append] at hmem
      rcases hmem with hmem | hmem
      · simp at hmem
        exact hmem
      · split_ifs at hmem <;> simp [exit_daemon] at hmem
  · by_cases hs : env.settimeofday_ret < 0
    · simp [exchange, hs, exit_daemon]
    · simp [exchange, hs, hq.1]

/-- The empty reply with settimeofday refusing the epoch 0. -/
theorem unparsable_reply_sets_clock_witness :
    Event.settimeofday (atol (readInto 1024 emptyReplyEnv.received)) 0
        emptyReplyEnv.settimeofday_ret ∈ timesync_client_daemon emptyReplyEnv
    ∧ (∀ s u r, Event.settimeofday s u r ∈ timesync_client_daemon emptyReplyEnv →
        s = atol (readInto 1024 emptyReplyEnv.received) ∧ u = 0
          ∧ r = emptyReplyEnv.settimeofday_ret)
    ∧ (Event.exit_failure ∈ timesync_client_daemon emptyReplyEnv
        ↔ emptyReplyEnv.settimeofday_ret < 0)
    ∧ atol (readInto 1024 []) = 0 :=
  unparsable_reply_sets_clock emptyReplyEnv (by decide) (by decide) (by decide)

/-- C7: with enough passes for the polling loop (timeout + 1), acquisition always returns.
If the connectivity probe fails, or every poll of the budget fails to decode a fix, then
the daemon does not exit during acquisition and goes on to socket setup (its next call is
socket), settimeofday occurs nowhere in the trace, and a LOG_WARNING is logged. The warning
"Could not set time according to GPS" is logged exactly when the receiver was reachable and
no poll of the budget succeeded. -/
theorem acquisition_failure_leaves_clock (env : ServerEnv) (fuel : Nat)
    (ht : env.timeout < 2147483647) (hfuel : env.timeout + 1 ≤ fuel) :
    ∃ acq exited, acquireGps env fuel = some (acq, exited)
      ∧ ((env.testConnection = false
            ∨ ∀ i : Nat, (i : Int) ≤ env.timeout → env.decodeSingleMessage i = none) →
          exited = false
          ∧ timesync_server_daemon env fuel = some (acq ++ serveClients env)
          ∧ (∀ s u r, Event.settimeofday s u r ∉ acq ++ serveClients env)
          ∧ (∃ m, Event.syslog Priority.LOG_WARNING m ∈ acq)
          ∧ Event.exit_failure ∉ acq
          ∧ (serveClients env).head? = some (Event.socket env.socket_ret))
      ∧ (Event.syslog Priority.LOG_WARNING Msg.couldNotSetTimeGps ∈ acq ↔
          (env.testConnection = true
            ∧ ∀ i : Nat, (i : Int) ≤ env.timeout → env.decodeSingleMessage i = none)) := by
  by_cases htc : env.testConnection = true
  · by_cases hall : ∀ i : Nat, (i : Int) ≤ env.timeout → env.decodeSingleMessage i = none
    · obtain ⟨k, w, hp, hw⟩ := pollGps_no_fix env fuel ht hfuel hall
      have hacq : acquireGps env fuel = some
          ([Event.testConnection true, Event.syslog Priority.LOG_INFO Msg.gpsTestOk,
            Event.configureSolutionRate 5000 env.configureSolutionRate] ++
            (if env.configureSolutionRate then []
              else [Event.syslog Priority.LOG_WARNING Msg.settingRateFailed]) ++
            cycles k [Event.decodeSingleMessage false, Event.sleep 1] ++
            [Event.syslog Priority.LOG_WARNING Msg.couldNotSetTimeGps], false) := by
        unfold acquireGps
        rw [if_pos htc, hp]
        simp [hw]
      refine ⟨_, _, hacq, ?_, ?_⟩
      · intro _
        refine ⟨rfl, ?_, ?_, ⟨Msg.couldNotSetTimeGps, by simp⟩, ?_, serveClients_head env⟩
        · unfold timesync_server_daemon
          rw [hacq]
        · intro s u r hmem
          rw [List.mem_append] at hmem
          rcases hmem with hmem | hmem
          · simp only [List.mem_append] at hmem
            rcases hmem with ((hmem | hmem) | hmem) | hmem
            · simp at hmem
            · split_ifs at hmem <;> simp at hmem
            · have := mem_cycles hmem
              simp at this
            · simp at hmem
          · exact serveClients_no_settimeofday env s u r hmem
        · intro hmem
          simp only [List.mem_append] at hmem
          rcases hmem with ((hmem | hmem) | hmem) | hmem
          · simp at hmem
          · split_ifs at hmem <;> simp at hmem
          · have := mem_cycles hmem
            simp at this
          · simp at hmem
      · constructor
        · intro _; exact ⟨htc, hall⟩
        · intro _; simp
    · have hex : ∃ i : Nat, (i : Int) ≤ env.timeout ∧ env.decodeSingleMessage i ≠ none := by
        push_neg at hall
        exact hall
      classical
      let k := Nat.find hex
      have hk : (k : Int) ≤ env.timeout ∧ env.decodeSingleMessage k ≠ none := Nat.find_spec hex
      have hmin : ∀ i, i < k → env.decodeSingleMessage i = none := by
        intro i hi
        by_contra hne
        exact Nat.find_min hex hi ⟨by omega, hne⟩
      obtain ⟨g, hg⟩ := Option.ne_none_iff_exists'.mp hk.2
      have hp := pollGps_first_fix env fuel k g ht hk.1 hfuel hmin hg
      have hacq : acquireGps env fuel = some
          ([Event.testConnection true, Event.syslog Priority.LOG_INFO Msg.gpsTestOk,
            Event.configureSolutionRate 5000 env.configureSolutionRate] ++
            (if env.configureSolutionRate then []
              else [Event.syslog Priority.LOG_WARNING Msg.settingRateFailed]) ++
            (cycles k [Event.decodeSingleMessage false, Event.sleep 1] ++
              ([Event.decodeSingleMessage true,
                Event.syslog Priority.LOG_INFO
                  (Msg.obtainedGpsEpoch (gpsToUnix g.tow_ms g.tow_ns g.week g.leap)),
                Event.settimeofday (gpsToUnix g.tow_ms g.tow_ns g.week g.leap) 0
                  env.settimeofday_ret] ++
                (if env.settimeofday_ret < 0 then
                  exit_daemon Priority.LOG_ERR Msg.couldNotSetSystemTimeGps
                else [Event.syslog Priority.LOG_INFO Msg.setSystemTimeGps]))),
            decide (env.settimeofday_ret < 0)) := by
        unfold acquireGps
        rw [if_pos htc, hp]
        by_cases hs : env.settimeofday_ret < 0
        · simp [hs]
        · simp [hs, hk.1]
      have hnot : Event.syslog Priority.LOG_WARNING Msg.couldNotSetTimeGps ∉
          [Event.testConnection true, Event.syslog Priority.LOG_INFO Msg.gpsTestOk,
            Event.configureSolutionRate 5000 env.configureSolutionRate] ++
            (if env.configureSolutionRate then []
              else [Event.syslog Priority.LOG_WARNING Msg.settingRateFailed]) ++
            (cycles k [Event.decodeSingleMessage false, Event.sleep 1] ++
              ([Event.decodeSingleMessage true,
                Event.syslog Priority.LOG_INFO
                  (Msg.obtainedGpsEpoch (gpsToUnix g.tow_ms g.tow_ns g.week g.leap)),
                Event.settimeofday (gpsToUnix g.tow_ms g.tow_ns g.week g.leap) 0
                  env.settimeofday_ret] ++
                (if env.settimeofday_ret < 0 then
                  exit_daemon Priority.LOG_ERR Msg.couldNotSetSystemTimeGps
                else [Event.syslog Priority.LOG_INFO Msg.setSystemTimeGps]))) := by
        intro hmem
        simp only [List.mem_append] at hmem
        rcases hmem with (hmem | hmem) | hmem | hmem | hmem
        · simp at hmem
        · split_ifs at hmem <;> simp at hmem
        · have := mem_cycles hmem
          simp at this
        · simp at hmem
        · split_ifs at hmem <;> simp [exit_daemon] at hmem
      refine ⟨_, _, hacq, ?_, ?_⟩
      · intro h
        rcases h with h | h
        · rw [htc] at h; exact absurd h (by decide)
        · exact absurd h hall
      · constructor
        · intro h; exact absurd h hnot
        · intro h; exact absurd h.2 hall
  · have htf : env.testConnection = false := by
      cases h : env.testConnection
      · rfl
      · exact absurd h htc
    have hacq : acquireGps env fuel = some ([Event.testConnection false,
        Event.syslog Priority.LOG_WARNING Msg.couldNotConnectGps], false) := by
      unfold acquireGps
      rw [htf]
      simp
    refine ⟨_, _, hacq, ?_, ?_⟩
    · intro _
      refine ⟨rfl, ?_, ?_, ⟨Msg.couldNotConnectGps, by simp⟩, by simp, serveClients_head env⟩
      · unfold timesync_server_daemon
        rw [hacq]
      · intro s u r hmem
        rw [List.mem_append] at hmem
        rcases hmem with hmem | hmem
        · simp at hmem
        · exact serveClients_no_settimeofday env s u r hmem
    · constructor
      · intro h; simp at h
      · intro h; exact absurd h.1 htc

/-- A reachable receiver that delivers no fix within timeout = 2. -/
theorem acquisition_failure_leaves_clock_witness :
    (noFixEnv.testConnection = false
      ∨ ∀ i : Nat, (i : Int) ≤ noFixEnv.timeout → noFixEnv.decodeSingleMessage i = none)
    ∧ ∃ acq exited, acquireGps noFixEnv 3 = some (acq, exited)
      ∧ ((noFixEnv.testConnection = false
            ∨ ∀ i : Nat, (i : Int) ≤ noFixEnv.timeout → noFixEnv.decodeSingleMessage i = none) →
          exited = false
          ∧ timesync_server_daemon noFixEnv 3 = some (acq ++ serveClients noFixEnv)
          ∧ (∀ s u r, Event.settimeofday s u r ∉ acq ++ serveClients noFixEnv)
          ∧ (∃ m, Event.syslog Priority.LOG_WARNING m ∈ acq)
          ∧ Event.exit_failure ∉ acq
          ∧ (serveClients noFixEnv).head? = some (Event.socket noFixEnv.socket_ret))
      ∧ (Event.syslog Priority.LOG_WARNING Msg.couldNotSetTimeGps ∈ acq ↔
          (noFixEnv.testConnection = true
            ∧ ∀ i : Nat, (i : Int) ≤ noFixEnv.timeout → noFixEnv.decodeSingleMessage i = none)) :=
  ⟨Or.inr (fun _ _ => rfl), acquisition_failure_leaves_clock noFixEnv 3 (by decide) (by decide)⟩

/-- C8 (counterexample): with the code's 32-bit week product, going from rollover count 2 to 3
at week_number_raw = 1023 makes the epoch smaller (4095*604800 wraps to a negative int);
and going from rollover count 1 to 2 at tow_ms = 999, tow_ns = 999900 raises the epoch by
1024*604800 + 1, not by exactly 1024*604800 (the double sum rounds differently at the
larger magnitude). -/
theorem rollover_regresses :
    gpsToUnixWith (3 * 1024) 0 0 1023 18 < gpsToUnixWith (2 * 1024) 0 0 1023 18
    ∧ gpsToUnixWith (2 * 1024) 999 999900 0 18 - gpsToUnixWith (1 * 1024) 999 999900 0 18
        = 1024 * 604800 + 1 := by
  have a3 : gpsToUnixWith (3 * 1024) 0 0 1023 18 = -1502346460 := by
    have h := gpsToUnixWith_whole_second_raw 0 1023 18 (3 * 1024)
      (by norm_num) (by norm_num) (by norm_num)
    have hk : weekSeconds (iadd32 ((1023 : ℕ) : ℤ) (3 * 1024)) = -1818311296 := by
      unfold weekSeconds imul32 iadd32 wrap32
      norm_num
    rw [hk] at h
    norm_num at h ⊢
    exact h
  have a2 : gpsToUnixWith (2 * 1024) 0 0 1023 18 = 2173305636 := by
    have h := gpsToUnixWith_whole_second 0 1023 18 (2 * 1024)
      (by norm_num) (by norm_num) (by norm_num) (by norm_num) (by norm_num)
    norm_num at h ⊢
    exact h
  have b2 : gpsToUnixWith (2 * 1024) 999 999900 0 18 = 1554595237 := by
    have := gpsToUnixWith_eq_of_window 999 999900 0 18 (2 * 1024) 30 1238630437
      (by norm_num) (by norm_num) (by norm_num)
      (by norm_num) (by norm_num) (by norm_num) (by norm_num) (by norm_num) (by norm_num)
      (by norm_num) (by norm_num) (by norm_num)
    norm_num at this ⊢
    exact this
  have b1 : gpsToUnixWith (1 * 1024) 999 999900 0 18 = 935280036 := by
    have := gpsToUnixWith_eq_of_window 999 999900 0 18 (1 * 1024) 29 619315236
      (by norm_num) (by norm_num) (by norm_num)
      (by norm_num) (by norm_num) (by norm_num) (by norm_num) (by norm_num) (by norm_num)
      (by norm_num) (by norm_num) (by norm_num)
    norm_num at this ⊢
    exact this
  rw [a3, a2, b2, b1]
  norm_num

/-- C8 (amended): for every fix with 32-bit time-of-week fields, week_number_raw in 0..1023
and |leap_seconds| at most 2^20, and every rollover count R with
week_number_raw + (R+1)*1024 at most 3550 (the range in which the 32-bit week product does
not overflow), the epoch converted with rollover count R+1 is strictly greater than with R;
the increase is within 2 s of 1024*604800, and it is exactly 1024*604800 when the time of
week is a whole number of seconds (tow_ms = 1000*k, tow_ns = 0). The code's converter is
the instance R = 2. -/
theorem rollover_increases (ms ns k W R : ℕ) (L : ℤ)
    (hms : ms < 4294967296) (hns : ns < 4294967296) (hk : k < 4294968) (hW : W < 1024)
    (hL : |L| ≤ 2 ^ 20) (hR : W + (R + 1) * 1024 ≤ 3550) :
    gpsToUnixWith ((R : ℤ) * 1024) (ms : ℚ) (ns : ℚ) (W : ℚ) (L : ℚ)
        < gpsToUnixWith (((R : ℤ) + 1) * 1024) (ms : ℚ) (ns : ℚ) (W : ℚ) (L : ℚ)
    ∧ |gpsToUnixWith (((R : ℤ) + 1) * 1024) (ms : ℚ) (ns : ℚ) (W : ℚ) (L : ℚ)
        - gpsToUnixWith ((R : ℤ) * 1024) (ms : ℚ) (ns : ℚ) (W : ℚ) (L : ℚ) - 1024 * 604800| ≤ 2
    ∧ gpsToUnixWith (((R : ℤ) + 1) * 1024) ((1000 * k : ℕ) : ℚ) ((0 : ℕ) : ℚ) (W : ℚ) (L : ℚ)
        - gpsToUnixWith ((R : ℤ) * 1024) ((1000 * k : ℕ) : ℚ) ((0 : ℕ) : ℚ) (W : ℚ) (L : ℚ)
        = 1024 * 604800
    ∧ gpsToUnix (ms : ℚ) (ns : ℚ) (W : ℚ) (L : ℚ)
        = gpsToUnixWith (2 * 1024) (ms : ℚ) (ns : ℚ) (W : ℚ) (L : ℚ) := by
  have n0 := abs_lt.mp (gpsToUnixWith_near_exact ms ns W L
    ((R : ℤ) * 1024) hms hns (by omega) hL (by omega) (by omega))
  have n1 := abs_lt.mp (gpsToUnixWith_near_exact ms ns W L
    (((R : ℤ) + 1) * 1024) hms hns (by omega) hL (by omega) (by omega))
  rw [gpsToUnixWith_whole_second k W L _ hk (by omega) hL (by omega) (by omega),
    gpsToUnixWith_whole_second k W L _ hk (by omega) hL (by omega) (by omega)]
  set A := gpsToUnixWith ((R : ℤ) * 1024) (ms : ℚ) (ns : ℚ) (W : ℚ) (L : ℚ) with hA
  set B := gpsToUnixWith (((R : ℤ) + 1) * 1024) (ms : ℚ) (ns : ℚ) (W : ℚ) (L : ℚ) with hB
  push_cast at n0 n1
  have d1 : ((619315200 - 3 : ℤ) : ℚ) < ((B - A : ℤ) : ℚ) := by
    push_cast; linarith [n0.1, n0.2, n1.1, n1.2]
  have d2 : ((B - A : ℤ) : ℚ) < ((619315200 + 3 : ℤ) : ℚ) := by
    push_cast; linarith [n0.1, n0.2, n1.1, n1.2]
  have d1' : 619315200 - 3 < B - A := by exact_mod_cast d1
  have d2' : B - A < 619315200 + 3 := by exact_mod_cast d2
  refine ⟨by omega, by rw [abs_le]; constructor <;> omega, by ring, ?_⟩
  unfold gpsToUnix
  norm_num

/-- From two to three rollovers at week_number_raw = 0. -/
theorem rollover_increases_witness :
    gpsToUnixWith (((2 : ℕ) : ℤ) * 1024) ((999 : ℕ) : ℚ) ((999900 : ℕ) : ℚ) ((0 : ℕ) : ℚ)
        ((18 : ℤ) : ℚ)
        < gpsToUnixWith ((((2 : ℕ) : ℤ) + 1) * 1024) ((999 : ℕ) : ℚ) ((999900 : ℕ) : ℚ)
          ((0 : ℕ) : ℚ) ((18 : ℤ) : ℚ)
    ∧ |gpsToUnixWith ((((2 : ℕ) : ℤ) + 1) * 1024) ((999 : ℕ) : ℚ) ((999900 : ℕ) : ℚ)
          ((0 : ℕ) : ℚ) ((18 : ℤ) : ℚ)
        - gpsToUnixWith (((2 : ℕ) : ℤ) * 1024) ((999 : ℕ) : ℚ) ((999900 : ℕ) : ℚ) ((0 : ℕ) : ℚ)
          ((18 : ℤ) : ℚ) - 1024 * 604800| ≤ 2
    ∧ gpsToUnixWith ((((2 : ℕ) : ℤ) + 1) * 1024) ((1000 * 7 : ℕ) : ℚ) ((0 : ℕ) : ℚ)
          ((0 : ℕ) : ℚ) ((18 : ℤ) : ℚ)
        - gpsToUnixWith (((2 : ℕ) : ℤ) * 1024) ((1000 * 7 : ℕ) : ℚ) ((0 : ℕ) : ℚ)
          ((0 : ℕ) : ℚ) ((18 : ℤ) : ℚ) = 1024 * 604800
    ∧ gpsToUnix ((999 : ℕ) : ℚ) ((999900 : ℕ) : ℚ) ((0 : ℕ) : ℚ) ((18 : ℤ) : ℚ)
        = gpsToUnixWith (2 * 1024) ((999 : ℕ) : ℚ) ((999900 : ℕ) : ℚ) ((0 : ℕ) : ℚ)
          ((18 : ℤ) : ℚ) :=
  rollover_increases 999 999900 7 0 2 18 (by norm_num) (by norm_num) (by norm_num)
    (by norm_num) (by norm_num) (by norm_num)

/-- C9: the accept loop reads nothing and never calls exit_daemon, but it is not isolated
from its connections. A peer that reset the connection before the reply (SIGPIPE in send,
line 218) ends the process after that send, so no later connection is accepted. And the
accepted sockets are never closed: in every run the kernel allows, started with open_fds
descriptors open under a limit of limit, at most limit - open_fds connections are ever
accepted, so of more clients than that the later ones get no answer. -/
theorem accept_loop_not_isolated (c : Connection) (later conns : List Connection)
    (limit open_fds : Nat) (hpipe : c.sigpipe = true) (hfd : 0 ≤ c.accept_ret)
    (hopen : open_fds ≤ limit)
    (hrule : descriptorsAllow limit open_fds (acceptLoop conns) = true) :
    acceptLoop (c :: later)
      = [Event.syslog Priority.LOG_DEBUG Msg.waitingForConnection,
          Event.accept c.accept_ret,
          Event.syslog Priority.LOG_DEBUG Msg.requestReceived,
          Event.time c.now,
          Event.send c.accept_ret (sprintf_ld c.now) c.send_ret,
          Event.sigpipe]
    ∧ acceptedCount (acceptLoop (c :: later)) = 1
    ∧ (∀ fd, Event.close fd ∉ acceptLoop conns)
    ∧ open_fds + acceptedCount (acceptLoop conns) ≤ limit
    ∧ (∀ fd n r, Event.read fd n r ∉ acceptLoop conns)
    ∧ Event.exit_failure ∉ acceptLoop conns := by
  have hq := acceptLoop_quiet conns
  have htrace : acceptLoop (c :: later)
      = [Event.syslog Priority.LOG_DEBUG Msg.waitingForConnection,
          Event.accept c.accept_ret,
          Event.syslog Priority.LOG_DEBUG Msg.requestReceived,
          Event.time c.now,
          Event.send c.accept_ret (sprintf_ld c.now) c.send_ret,
          Event.sigpipe] := by
    rw [acceptLoop, if_pos ⟨hpipe, hfd⟩]
    rfl
  refine ⟨htrace, ?_, hq.2.2.2, ?_, hq.2.1, hq.1⟩
  · rw [htrace]
    simp [acceptedCount, hfd]
  · exact descriptorsAllow_bound limit _ open_fds hopen hq.2.2.2 hrule

/-- A reset peer followed by a well-behaved client; and two clients with two descriptors
free. -/
theorem accept_loop_not_isolated_witness :
    acceptLoop (resetConnection :: [sampleConnection])
      = [Event.syslog Priority.LOG_DEBUG Msg.waitingForConnection,
          Event.accept resetConnection.accept_ret,
          Event.syslog Priority.LOG_DEBUG Msg.requestReceived,
          Event.time resetConnection.now,
          Event.send resetConnection.accept_ret (sprintf_ld resetConnection.now)
            resetConnection.send_ret,
          Event.sigpipe]
    ∧ acceptedCount (acceptLoop (resetConnection :: [sampleConnection])) = 1
    ∧ (∀ fd, Event.close fd ∉ acceptLoop [sampleConnection, sampleConnection])
    ∧ 6 + acceptedCount (acceptLoop [sampleConnection, sampleConnection]) ≤ 8
    ∧ (∀ fd n r, Event.read fd n r ∉ acceptLoop [sampleConnection, sampleConnection])
    ∧ Event.exit_failure ∉ acceptLoop [sampleConnection, sampleConnection] :=
  accept_loop_not_isolated resetConnection [sampleConnection]
    [sampleConnection, sampleConnection] 8 6 rfl (by decide) (by decide) (by decide)

/-- C10: for every week_number_raw W in 0..1023 none of the three int multiplications of
weeknumber*7*24*3600, with weeknumber = W + 2048 as the code computes it, wraps: the value
equals the mathematical product, which is at most 3071 * 604800 = 1857340800 < 2^31; and for
a non-negative weeknumber the product stays in range exactly when weeknumber <= 3550. -/
theorem week_product_no_overflow (W wn : ℕ) (hW : W < 1024) :
    (imul32 ((W : ℤ) + 2048) 7 = ((W : ℤ) + 2048) * 7
      ∧ imul32 (((W : ℤ) + 2048) * 7) 24 = ((W : ℤ) + 2048) * 7 * 24
      ∧ imul32 (((W : ℤ) + 2048) * 7 * 24) 3600 = ((W : ℤ) + 2048) * 7 * 24 * 3600
      ∧ weekSeconds (iadd32 (castInt (W : ℚ)) 2048) = ((W : ℤ) + 2048) * 7 * 24 * 3600
      ∧ ((W : ℤ) + 2048) * 7 * 24 * 3600 ≤ 3071 * 604800)
    ∧ weekSeconds 3071 = 1857340800 ∧ (1857340800 : ℤ) < 2 ^ 31
    ∧ ((wn : ℤ) * 7 * 24 * 3600 < 2 ^ 31 ↔ wn ≤ 3550)
    ∧ (weekSeconds (wn : ℤ) = (wn : ℤ) * 7 * 24 * 3600 ↔ wn ≤ 3550) := by
  refine ⟨⟨?_, ?_, ?_, ?_, ?_⟩, ?_, ?_, ?_, ?_⟩
  · unfold imul32 wrap32; omega
  · unfold imul32 wrap32; omega
  · unfold imul32 wrap32; omega
  · have c2 : castInt (W : ℚ) = (W : ℤ) := by
      have := castInt_intCast (n := (W : ℤ)) (by omega) (by omega)
      simpa using this
    have hw : iadd32 (W : ℤ) 2048 = (W : ℤ) + 2048 := by
      unfold iadd32
      exact wrap32_of_range (by omega) (by omega)
    rw [c2, hw, weekSeconds_of_range (by omega) (by omega)]; ring
  · omega
  · rw [weekSeconds_of_range (by omega) (by omega)]; norm_num
  · norm_num
  · constructor <;> intro h <;> omega
  · constructor
    · intro h
      by_contra hgt
      have hb : weekSeconds (wn : ℤ) < 2147483648 := by
        unfold weekSeconds imul32 wrap32; omega
      omega
    · intro h
      rw [weekSeconds_of_range (by omega) (by omega)]; ring

/-- The first raw week, and the first week number whose product leaves the range. -/
theorem week_product_no_overflow_witness :
    ((imul32 (((0 : ℕ) : ℤ) + 2048) 7 = (((0 : ℕ) : ℤ) + 2048) * 7
      ∧ imul32 ((((0 : ℕ) : ℤ) + 2048) * 7) 24 = (((0 : ℕ) : ℤ) + 2048) * 7 * 24
      ∧ imul32 ((((0 : ℕ) : ℤ) + 2048) * 7 * 24) 3600 = (((0 : ℕ) : ℤ) + 2048) * 7 * 24 * 3600
      ∧ weekSeconds (iadd32 (castInt ((0 : ℕ) : ℚ)) 2048)
          = (((0 : ℕ) : ℤ) + 2048) * 7 * 24 * 3600
      ∧ (((0 : ℕ) : ℤ) + 2048) * 7 * 24 * 3600 ≤ 3071 * 604800)
    ∧ weekSeconds 3071 = 1857340800 ∧ (1857340800 : ℤ) < 2 ^ 31
    ∧ (((3551 : ℕ) : ℤ) * 7 * 24 * 3600 < 2 ^ 31 ↔ 3551 ≤ 3550)
    ∧ (weekSeconds ((3551 : ℕ) : ℤ) = ((3551 : ℕ) : ℤ) * 7 * 24 * 3600 ↔ 3551 ≤ 3550)) :=
  week_product_no_overflow 0 3551 (by decide)

end Timesyncd
